import Mathlib

/-!
Shallow embedding of the ACTGAN conditional-vector sampler
(src/gretel_synthetics/actgan/data_sampler.py).

Numeric array entries are modelled as rationals (exact arithmetic in place
of float64).  Randomness is external to the sampler in the source (fresh
numpy draws per call); here every random draw is an explicit parameter:
a function whose value at i stands for the i-th element of the drawn
numpy vector.  Fallible code paths (numpy IndexError on an out-of-range
integer column index, the constructor assert, np.random.choice on an
empty list) are modelled with Except.
-/

/-- SpanInfo from actgan/structures.py: width of one encoded sub-block and
its activation tag. -/
structure SpanInfo where
  dim : Nat
  activation_fn : String
deriving DecidableEq

/-- ColumnIdInfo from actgan/structures.py: a caller-supplied condition
descriptor (discrete column ordinal, category value ordinal). -/
structure ColumnIdInfo where
  discrete_column_id : Nat
  value_id : Nat
deriving DecidableEq

/-- A 2-D numeric array: the list of rows plus an explicit column count
(numpy shape[1], which is well defined even for a 0-row array).  In-bounds
reads of a rectangular numpy array are modelled with getD. -/
structure Mat where
  rows : List (List ℚ)
  ncols : Nat
deriving DecidableEq, Inhabited

/-- len(data): the number of rows. -/
def Mat.nrows (m : Mat) : Nat := m.rows.length

/-- data[i, j] for an in-bounds read. -/
def Mat.entry (m : Mat) (i j : Nat) : ℚ := (m.rows.getD i []).getD j 0

/-- Source predicate: len(span_info) == 1 and
span_info[0].activation_fn == "softmax". -/
def is_discrete_column (span_info : List SpanInfo) : Bool :=
  span_info.length == 1 && (span_info.headD ⟨0, ""⟩).activation_fn == "softmax"

/-- Width of one column entry of output_info: sum of its span dims. -/
def sumDims (span_info_list : List SpanInfo) : Nat :=
  (span_info_list.map SpanInfo.dim).sum

/-- Sum of all span widths across the whole layout. -/
def totalDims (output_info : List (List SpanInfo)) : Nat :=
  (output_info.map sumDims).sum

/-- np.nonzero(data[:, j])[0]: all row indices whose entry in column j is
nonzero, in increasing order. -/
def nonzeroRows (m : Mat) (j : Nat) : List Nat :=
  (List.range m.nrows).filter (fun i => m.entry i j != 0)

/-- First construction pass of DataSampler.__init__ (the _rid_by_cat_cols
loop): walks the layout with a running matrix-column cursor st; for each
discrete column it collects, for every category index j below its span
width, the nonzero-row list of matrix column st + j, and advances st by
the span width; non-discrete columns only advance the cursor.  A read of
an integer column index at or beyond ncols is a numpy IndexError, hence
the error branch; the returned Nat is the final cursor. -/
def buildRid (m : Mat) : List (List SpanInfo) → Nat →
    Except String (List (List (List Nat)) × Nat)
  | [], st => .ok ([], st)
  | span_info_list :: rest, st =>
    if is_discrete_column span_info_list then
      let d := (span_info_list.headD ⟨0, ""⟩).dim
      if d ≠ 0 ∧ m.ncols < st + d then
        .error "column index out of range"
      else
        match buildRid m rest (st + d) with
        | .error e => .error e
        | .ok (rid, fin) =>
          .ok (((List.range d).map (fun j => nonzeroRows m (st + j))) :: rid, fin)
    else
      buildRid m rest (st + sumDims span_info_list)

/-- np.sum(data[:, st:st+d], axis=0): the per-category frequency row of the
one-hot block starting at matrix column st with width d. -/
def categoryFreq (m : Mat) (st d : Nat) : List ℚ :=
  (List.range d).map
    (fun j => ((List.range m.nrows).map (fun i => m.entry i (st + j))).sum)

/-- The source applies np.log(category_freq + 1) elementwise when
log_frequency is set.  The natural logarithm is transcendental, so in
this rational-valued model the smoothing map is an explicit parameter
smooth (standing for fun f => np.log (f + 1)); probRowR below is the
real-valued instantiation with Real.log. -/
def smoothFreq (log_frequency : Bool) (smooth : ℚ → ℚ) (freq : List ℚ) :
    List ℚ :=
  if log_frequency then freq.map smooth else freq

/-- One row of _discrete_column_category_prob: the (optionally smoothed)
frequency row normalised by its sum and padded with zeros up to the
maximal category count (the row was sliced into a zero matrix of width
maxcat). -/
def probRow (log_frequency : Bool) (smooth : ℚ → ℚ) (m : Mat)
    (st d maxcat : Nat) : List ℚ :=
  let f := smoothFreq log_frequency smooth (categoryFreq m st d)
  f.map (fun p => p / f.sum) ++ List.replicate (maxcat - d) 0

/-- Second construction pass of DataSampler.__init__: per discrete column,
in order, record the cond-vector offset (running cursor current_cond_st),
the category count, and the padded probability row; st is the running
matrix cursor.  Returns the three per-discrete-column lists. -/
def passTwo (m : Mat) (log_frequency : Bool) (smooth : ℚ → ℚ) (maxcat : Nat) :
    List (List SpanInfo) → Nat → Nat → List Nat × List Nat × List (List ℚ)
  | [], _, _ => ([], [], [])
  | span_info_list :: rest, st, cst =>
    if is_discrete_column span_info_list then
      let d := (span_info_list.headD ⟨0, ""⟩).dim
      let r := passTwo m log_frequency smooth maxcat rest (st + d) (cst + d)
      (cst :: r.1, d :: r.2.1, probRow log_frequency smooth m st d maxcat :: r.2.2)
    else
      passTwo m log_frequency smooth maxcat rest (st + sumDims span_info_list) cst

/-- The span widths of the discrete columns, in order. -/
def discreteDims (output_info : List (List SpanInfo)) : List Nat :=
  (output_info.filter is_discrete_column).map (fun l => (l.headD ⟨0, ""⟩).dim)

/-- max(..., default=0) over the discrete span widths. -/
def maxCategory (output_info : List (List SpanInfo)) : Nat :=
  (discreteDims output_info).foldr max 0

/-- The state DataSampler.__init__ builds (the probability matrix is the
rational-valued model of the float matrix). -/
structure DataSampler where
  data : Mat
  rid_by_cat_cols : List (List (List Nat))
  discrete_column_matrix_st : List Nat
  discrete_column_cond_st : List Nat
  discrete_column_n_category : List Nat
  discrete_column_category_prob : List (List ℚ)
  n_discrete_columns : Nat
  n_categories : Nat
deriving DecidableEq

instance : Inhabited DataSampler :=
  ⟨⟨default, [], [], [], [], [], 0, 0⟩⟩

/-- DataSampler.__init__.  _discrete_column_matrix_st is allocated as
np.zeros(n_discrete_columns) and never written afterwards, hence the
replicate of zeros.  The assert st == data.shape[1] after the first pass
is the error branch on the final cursor. -/
def DataSampler.init (m : Mat) (output_info : List (List SpanInfo))
    (log_frequency : Bool) (smooth : ℚ → ℚ) : Except String DataSampler :=
  let n_discrete_columns := (output_info.filter is_discrete_column).length
  match buildRid m output_info 0 with
  | .error e => .error e
  | .ok (rid, st) =>
    if st = m.ncols then
      let r := passTwo m log_frequency smooth (maxCategory output_info)
        output_info 0 0
      .ok
        { data := m
          rid_by_cat_cols := rid
          discrete_column_matrix_st := List.replicate n_discrete_columns 0
          discrete_column_cond_st := r.1
          discrete_column_n_category := r.2.1
          discrete_column_category_prob := r.2.2
          n_discrete_columns := n_discrete_columns
          n_categories := (discreteDims output_info).sum }
    else
      .error "layout width and matrix column count mismatch"

/-- First index of a true entry, or none: the argmax semantics of a numpy
boolean vector is (firstTrue l).getD 0. -/
def firstTrue : List Bool → Option Nat
  | [] => none
  | b :: bs => if b then some 0 else (firstTrue bs).map (· + 1)

/-- np.argmax of a boolean vector: index of the first True, or 0 when all
entries are False. -/
def npArgmaxBool (l : List Bool) : Nat :=
  (firstTrue l).getD 0

/-- Maximum of a numeric vector (junk value 0 on the empty list, on which
np.argmax raises instead). -/
def listMax : List ℚ → ℚ
  | [] => 0
  | [x] => x
  | x :: y :: ys => max x (listMax (y :: ys))

/-- np.argmax of a numeric vector: index of the first occurrence of the
maximum. -/
def npArgmax : List ℚ → Nat
  | [] => 0
  | [_] => 0
  | x :: y :: ys => if listMax (y :: ys) ≤ x then 0 else npArgmax (y :: ys) + 1

/-- probs.cumsum(): entry i is the sum of the first i+1 entries. -/
def cumsum (l : List ℚ) : List ℚ :=
  (List.range l.length).map (fun i => (l.take (i + 1)).sum)

/-- One batch element of _random_choice_prob_index: given the selected
column's probability row and the uniform draw r, return
(probs.cumsum() > r).argmax(). -/
def rcpiRow (probs : List ℚ) (r : ℚ) : Nat :=
  npArgmaxBool ((cumsum probs).map (fun x => decide (r < x)))

/-- DataSampler._random_choice_prob_index: ids are the selected
discrete-column ids (one per batch element), rs the np.random.rand draws. -/
def DataSampler.random_choice_prob_index (s : DataSampler) (ids : Nat → Nat)
    (rs : Nat → ℚ) (batch : Nat) : List Nat :=
  (List.range batch).map
    (fun i => rcpiRow (s.discrete_column_category_prob.getD (ids i) []) (rs i))

/-- A length-n one-hot numeric row with the 1 at position k (the fancy
assignment row[k] = 1 into a zero row). -/
def oneHot (n k : Nat) : List ℚ :=
  (List.range n).map (fun j => if j = k then 1 else 0)

/-- DataSampler.sample_condvec.  ids stands for the
np.random.choice(np.arange(n_discrete_columns), batch) draw and rs for the
uniform draws consumed by _random_choice_prob_index.  Returns
(cond, mask, discrete column ids, category ids in column), or none when
there is no discrete column. -/
def DataSampler.sample_condvec (s : DataSampler) (batch : Nat)
    (ids : Nat → Nat) (rs : Nat → ℚ) :
    Option (List (List ℚ) × List (List ℚ) × List Nat × List Nat) :=
  if s.n_discrete_columns = 0 then none
  else
    let category_id_in_col := s.random_choice_prob_index ids rs batch
    let category_id := (List.range batch).map
      (fun i => s.discrete_column_cond_st.getD (ids i) 0 +
        category_id_in_col.getD i 0)
    let cond := (List.range batch).map
      (fun i => oneHot s.n_categories (category_id.getD i 0))
    let mask := (List.range batch).map
      (fun i => oneHot s.n_discrete_columns (ids i))
    some (cond, mask, (List.range batch).map ids, category_id_in_col)

/-- DataSampler.sample_original_condvec.  rowf i and colf i stand for the
np.random.randint draws of the i-th loop iteration (a training-row index
and a discrete-column index). -/
def DataSampler.sample_original_condvec (s : DataSampler) (batch : Nat)
    (rowf colf : Nat → Nat) : Option (List (List ℚ)) :=
  if s.n_discrete_columns = 0 then none
  else
    some ((List.range batch).map (fun i =>
      let col_idx := colf i
      let matrix_st := s.discrete_column_matrix_st.getD col_idx 0
      let d := s.discrete_column_n_category.getD col_idx 0
      let pick := npArgmax
        ((List.range d).map (fun j => s.data.entry (rowf i) (matrix_st + j)))
      oneHot s.n_categories (pick + s.discrete_column_cond_st.getD col_idx 0)))

/-- The conditioned loop of DataSampler.sample_data: one row per (c, o)
pair of zip(col, opt); pickf k indexes the np.random.choice draw of the
k-th iteration into the row-id list (uniform over it), and
np.random.choice raises on an empty list. -/
def DataSampler.sample_data_rows (s : DataSampler) :
    List Nat → List Nat → (Nat → Nat) → Nat → Except String (List (List ℚ))
  | [], _, _, _ => .ok []
  | _ :: _, [], _, _ => .ok []
  | c :: cs, o :: os, pickf, k =>
    let arr := (s.rid_by_cat_cols.getD c []).getD o []
    if arr.isEmpty then .error "cannot take a random choice from an empty list"
    else
      match s.sample_data_rows cs os pickf (k + 1) with
      | .error e => .error e
      | .ok rest => .ok ((s.data.rows.getD (arr.getD (pickf k) 0) []) :: rest)

/-- DataSampler.sample_data.  In the unconditioned branch idxf i stands for
the i-th np.random.randint(len(data)) draw. -/
def DataSampler.sample_data (s : DataSampler) (n : Nat)
    (col : Option (List Nat)) (opt : List Nat) (idxf : Nat → Nat)
    (pickf : Nat → Nat) : Except String (List (List ℚ)) :=
  match col with
  | none => .ok ((List.range n).map (fun i => s.data.rows.getD (idxf i) []))
  | some cs => s.sample_data_rows cs opt pickf 0

/-- DataSampler.dim_cond_vec. -/
def DataSampler.dim_cond_vec (s : DataSampler) : Nat := s.n_categories

/-- DataSampler.generate_cond_from_condition_column_info: every row of the
batch is the same one-hot row, with the 1 at
_discrete_column_matrix_st[discrete_column_id] + value_id. -/
def DataSampler.generate_cond_from_condition_column_info (s : DataSampler)
    (condition_info : ColumnIdInfo) (batch_size : Nat) : List (List ℚ) :=
  (List.range batch_size).map (fun _ =>
    oneHot s.n_categories
      (s.discrete_column_matrix_st.getD condition_info.discrete_column_id 0 +
        condition_info.value_id))

/-- Real-valued smoothed frequency row: the source's
np.log(category_freq + 1) taken literally as Real.log when log_frequency
is set, the raw frequencies (cast to ℝ) otherwise. -/
noncomputable def smoothFreqR (log_frequency : Bool) (freq : List ℚ) :
    List ℝ :=
  if log_frequency then
    freq.map (fun (q : ℚ) => Real.log ((q : ℝ) + 1))
  else
    freq.map (Rat.cast : ℚ → ℝ)

/-- Real-valued probability row of one discrete column: the smoothed
frequency row normalised by its sum and padded with zeros up to maxcat;
the rational-valued probRow with an abstract smoothing map is the
in-sampler counterpart. -/
noncomputable def probRowR (log_frequency : Bool) (m : Mat)
    (st d maxcat : Nat) : List ℝ :=
  let f := smoothFreqR log_frequency (categoryFreq m st d)
  f.map (fun p => p / f.sum) ++ List.replicate (maxcat - d) 0

/-- Matrix-span metadata of the discrete columns, in order: (span start in
the encoded matrix, span width), computed by the same cursor walk the
constructor performs.  This is the spec-level notion of a discrete
column's own one-hot block position. -/
def discStarts : List (List SpanInfo) → Nat → List (Nat × Nat)
  | [], _ => []
  | span_info_list :: rest, st =>
    if is_discrete_column span_info_list then
      (st, (span_info_list.headD ⟨0, ""⟩).dim) ::
        discStarts rest (st + sumDims span_info_list)
    else
      discStarts rest (st + sumDims span_info_list)

/-- Running cond-vector offsets: prefix sums of the category counts. -/
def prefixSums : List Nat → Nat → List Nat
  | [], _ => []
  | d :: ds, acc => acc :: prefixSums ds (acc + d)

/-! ### Concrete fixtures used by witnesses and counterexamples -/

/-- A 2-row encoded matrix with two one-hot discrete columns of two
categories each: row 0 has categories (0, 1), row 1 has categories (1, 0). -/
def mat1 : Mat := ⟨[[1, 0, 0, 1], [0, 1, 1, 0]], 4⟩

/-- Layout of mat1: two discrete (softmax) columns of width 2. -/
def oi1 : List (List SpanInfo) := [[⟨2, "softmax"⟩], [⟨2, "softmax"⟩]]

/-- The sampler constructed from mat1 and oi1 without smoothing. -/
def sampler1 : DataSampler :=
  (DataSampler.init mat1 oi1 false id).toOption.getD default

/-- A 1-row matrix with a single discrete column of two categories in
which category 1 never occurs. -/
def mat8 : Mat := ⟨[[1, 0]], 2⟩

/-- Layout of mat8: one discrete column of width 2. -/
def oi8 : List (List SpanInfo) := [[⟨2, "softmax"⟩]]

/-- The sampler constructed from mat8 and oi8. -/
def sampler8 : DataSampler :=
  (DataSampler.init mat8 oi8 false id).toOption.getD default

/-- A matrix for a layout with no discrete column. -/
def mat9 : Mat := ⟨[[5, 7]], 2⟩

/-- A layout with a single non-discrete (tanh) column of width 2. -/
def oi9 : List (List SpanInfo) := [[⟨2, "tanh"⟩]]

/-! ### Basic list helper lemmas -/

theorem getD_map_range {α : Type} (f : Nat → α) (d : α) {n i : Nat}
    (h : i < n) : ((List.range n).map f).getD i d = f i := by
  rw [List.getD_eq_getElem _ _ (by simpa using h)]
  simp

theorem length_map_range {α : Type} (f : Nat → α) (n : Nat) :
    ((List.range n).map f).length = n := by simp

theorem oneHot_length (n k : Nat) : (oneHot n k).length = n := by
  simp [oneHot]

theorem oneHot_getD_self {n k : Nat} (h : k < n) : (oneHot n k).getD k 0 = 1 := by
  rw [oneHot, getD_map_range _ _ h]
  simp

theorem oneHot_getD_ne {n k j : Nat} (h : j ≠ k) : (oneHot n k).getD j 0 = 0 := by
  by_cases hj : j < n
  · rw [oneHot, getD_map_range _ _ hj]
    simp [h]
  · refine List.getD_eq_default _ _ ?_
    rw [oneHot_length]
    exact Nat.le_of_not_lt hj

/-! ### Structure of the layout walk -/

theorem discrete_span_eq {l : List SpanInfo} (h : is_discrete_column l = true) :
    l = [l.headD ⟨0, ""⟩] := by
  cases l with
  | nil => simp [is_discrete_column] at h
  | cons a t =>
    cases t with
    | nil => rfl
    | cons b t2 => simp [is_discrete_column] at h

theorem sumDims_of_discrete {l : List SpanInfo}
    (h : is_discrete_column l = true) :
    sumDims l = (l.headD ⟨0, ""⟩).dim := by
  conv_lhs => rw [discrete_span_eq h]
  simp [sumDims]

theorem totalDims_cons (info : List SpanInfo) (rest : List (List SpanInfo)) :
    totalDims (info :: rest) = sumDims info + totalDims rest := by
  simp [totalDims]

theorem discreteDims_cons_discrete {info : List SpanInfo}
    (rest : List (List SpanInfo)) (h : is_discrete_column info = true) :
    discreteDims (info :: rest) =
      (info.headD ⟨0, ""⟩).dim :: discreteDims rest := by
  simp [discreteDims, List.filter_cons, h]

theorem discreteDims_cons_not_discrete {info : List SpanInfo}
    (rest : List (List SpanInfo)) (h : ¬ is_discrete_column info = true) :
    discreteDims (info :: rest) = discreteDims rest := by
  simp [discreteDims, List.filter_cons, h]

theorem discStarts_bound :
    ∀ (oi : List (List SpanInfo)) (st : Nat) (p : Nat × Nat),
      p ∈ discStarts oi st → p.1 + p.2 ≤ st + totalDims oi
  | [], st, p => by simp [discStarts]
  | info :: rest, st, p => by
    intro hp
    by_cases hd : is_discrete_column info
    · rw [discStarts, if_pos hd] at hp
      rcases List.mem_cons.mp hp with h | h
      · subst h
        rw [totalDims_cons, sumDims_of_discrete hd]
        omega
      · have := discStarts_bound rest (st + sumDims info) p h
        rw [totalDims_cons]
        omega
    · rw [discStarts, if_neg hd] at hp
      have := discStarts_bound rest (st + sumDims info) p hp
      rw [totalDims_cons]
      omega

theorem discStarts_snd :
    ∀ (oi : List (List SpanInfo)) (st : Nat),
      (discStarts oi st).map Prod.snd = discreteDims oi
  | [], st => by simp [discStarts, discreteDims]
  | info :: rest, st => by
    by_cases hd : is_discrete_column info
    · rw [discStarts, if_pos hd, discreteDims_cons_discrete rest hd]
      simp [discStarts_snd rest]
    · rw [discStarts, if_neg hd, discreteDims_cons_not_discrete rest hd]
      exact discStarts_snd rest _

theorem discStarts_length (oi : List (List SpanInfo)) (st : Nat) :
    (discStarts oi st).length = (discreteDims oi).length := by
  rw [← discStarts_snd oi st, List.length_map]

theorem discreteDims_length (oi : List (List SpanInfo)) :
    (discreteDims oi).length = (oi.filter is_discrete_column).length := by
  simp [discreteDims]

/-! ### Characterisation of the two construction passes -/

theorem buildRid_ok_snd (m : Mat) :
    ∀ (oi : List (List SpanInfo)) (st : Nat) (rid : List (List (List Nat)))
      (fin : Nat), buildRid m oi st = .ok (rid, fin) → fin = st + totalDims oi
  | [], st, rid, fin => by
    intro h
    simp only [buildRid, Except.ok.injEq, Prod.mk.injEq] at h
    simp [totalDims, ← h.2]
  | info :: rest, st, rid, fin => by
    intro h
    by_cases hd : is_discrete_column info
    · rw [buildRid, if_pos hd] at h
      by_cases hb : (info.headD ⟨0, ""⟩).dim ≠ 0 ∧
          m.ncols < st + (info.headD ⟨0, ""⟩).dim
      · rw [if_pos hb] at h
        exact absurd h (by simp)
      · rw [if_neg hb] at h
        revert h
        cases hrec : buildRid m rest (st + (info.headD ⟨0, ""⟩).dim) with
        | error e => intro h; exact absurd h (by simp)
        | ok p =>
          intro h
          simp only [Except.ok.injEq, Prod.mk.injEq] at h
          have := buildRid_ok_snd m rest _ p.1 p.2 (by rw [hrec])
          rw [totalDims_cons, sumDims_of_discrete hd]
          omega
    · rw [buildRid, if_neg hd] at h
      have := buildRid_ok_snd m rest _ rid fin h
      rw [totalDims_cons]
      omega

theorem buildRid_eq (m : Mat) :
    ∀ (oi : List (List SpanInfo)) (st : Nat),
      (∀ p ∈ discStarts oi st, p.1 + p.2 ≤ m.ncols) →
      buildRid m oi st =
        .ok ((discStarts oi st).map
            (fun p => (List.range p.2).map (fun j => nonzeroRows m (p.1 + j))),
          st + totalDims oi)
  | [], st => by
    intro _
    simp [buildRid, discStarts, totalDims]
  | info :: rest, st => by
    intro hb
    by_cases hd : is_discrete_column info
    · have hds : discStarts (info :: rest) st =
          (st, (info.headD ⟨0, ""⟩).dim) ::
            discStarts rest (st + sumDims info) := by
        rw [discStarts, if_pos hd]
      have hhead : st + (info.headD ⟨0, ""⟩).dim ≤ m.ncols := by
        have := hb (st, (info.headD ⟨0, ""⟩).dim) (by rw [hds]; exact List.mem_cons_self _ _)
        simpa using this
      rw [sumDims_of_discrete hd] at hds
      have hrec := buildRid_eq m rest (st + (info.headD ⟨0, ""⟩).dim)
        (fun p hp => hb p (by rw [hds]; exact List.mem_cons_of_mem _ hp))
      rw [buildRid, if_pos hd, if_neg (by omega), hrec, hds, totalDims_cons,
        sumDims_of_discrete hd]
      simp [Nat.add_assoc]
    · have hds : discStarts (info :: rest) st =
          discStarts rest (st + sumDims info) := by
        rw [discStarts, if_neg hd]
      rw [buildRid, if_neg hd]
      have hrec := buildRid_eq m rest (st + sumDims info)
        (fun p hp => hb p (by rw [hds]; exact hp))
      rw [hrec, hds, totalDims_cons]
      simp [Nat.add_assoc]

theorem passTwo_eq (m : Mat) (lf : Bool) (sm : ℚ → ℚ) (mc : Nat) :
    ∀ (oi : List (List SpanInfo)) (st cst : Nat),
      passTwo m lf sm mc oi st cst =
        (prefixSums (discreteDims oi) cst, discreteDims oi,
          (discStarts oi st).map (fun p => probRow lf sm m p.1 p.2 mc))
  | [], st, cst => by
    simp [passTwo, discreteDims, prefixSums, discStarts]
  | info :: rest, st, cst => by
    by_cases hd : is_discrete_column info
    · rw [passTwo, if_pos hd]
      simp only [passTwo_eq m lf sm mc rest]
      rw [discreteDims_cons_discrete rest hd, discStarts, if_pos hd,
        sumDims_of_discrete hd, prefixSums]
      simp
    · rw [passTwo, if_neg hd]
      simp only [passTwo_eq m lf sm mc rest]
      rw [discreteDims_cons_not_discrete rest hd, discStarts, if_neg hd]

/-! ### Characterisation of a successfully constructed sampler -/

theorem init_unfold (m : Mat) (oi : List (List SpanInfo)) (lf : Bool)
    (sm : ℚ → ℚ) (rid : List (List (List Nat))) (st : Nat)
    (hbr : buildRid m oi 0 = .ok (rid, st)) :
    DataSampler.init m oi lf sm =
      if st = m.ncols then
        .ok
          { data := m
            rid_by_cat_cols := rid
            discrete_column_matrix_st :=
              List.replicate (oi.filter is_discrete_column).length 0
            discrete_column_cond_st :=
              (passTwo m lf sm (maxCategory oi) oi 0 0).1
            discrete_column_n_category :=
              (passTwo m lf sm (maxCategory oi) oi 0 0).2.1
            discrete_column_category_prob :=
              (passTwo m lf sm (maxCategory oi) oi 0 0).2.2
            n_discrete_columns := (oi.filter is_discrete_column).length
            n_categories := (discreteDims oi).sum }
      else .error "layout width and matrix column count mismatch" := by
  rw [DataSampler.init, hbr]

theorem init_unfold_error (m : Mat) (oi : List (List SpanInfo)) (lf : Bool)
    (sm : ℚ → ℚ) (e : String) (hbr : buildRid m oi 0 = .error e) :
    DataSampler.init m oi lf sm = .error e := by
  rw [DataSampler.init, hbr]

theorem init_ok_total {m : Mat} {oi : List (List SpanInfo)} {lf : Bool}
    {sm : ℚ → ℚ} {s : DataSampler}
    (h : DataSampler.init m oi lf sm = .ok s) : totalDims oi = m.ncols := by
  revert h
  cases hbr : buildRid m oi 0 with
  | error e =>
    intro h
    rw [init_unfold_error m oi lf sm e hbr] at h
    exact absurd h (by simp)
  | ok p =>
    obtain ⟨rid, st⟩ := p
    intro h
    rw [init_unfold m oi lf sm rid st hbr] at h
    by_cases hst : st = m.ncols
    · have := buildRid_ok_snd m oi 0 rid st hbr
      omega
    · rw [if_neg hst] at h
      exact absurd h (by simp)

theorem init_ok_of_total {m : Mat} {oi : List (List SpanInfo)} (lf : Bool)
    (sm : ℚ → ℚ) (htot : totalDims oi = m.ncols) :
    ∃ s, DataSampler.init m oi lf sm = .ok s := by
  have hbound : ∀ p ∈ discStarts oi 0, p.1 + p.2 ≤ m.ncols := by
    intro p hp
    have := discStarts_bound oi 0 p hp
    omega
  rw [init_unfold m oi lf sm _ _ (buildRid_eq m oi 0 hbound),
    if_pos (by omega)]
  exact ⟨_, rfl⟩

theorem init_fields {m : Mat} {oi : List (List SpanInfo)} {lf : Bool}
    {sm : ℚ → ℚ} {s : DataSampler}
    (h : DataSampler.init m oi lf sm = .ok s) :
    s.data = m ∧
    s.rid_by_cat_cols = (discStarts oi 0).map
      (fun p => (List.range p.2).map (fun j => nonzeroRows m (p.1 + j))) ∧
    s.discrete_column_matrix_st = List.replicate s.n_discrete_columns 0 ∧
    s.discrete_column_cond_st = prefixSums (discreteDims oi) 0 ∧
    s.discrete_column_n_category = discreteDims oi ∧
    s.discrete_column_category_prob = (discStarts oi 0).map
      (fun p => probRow lf sm m p.1 p.2 (maxCategory oi)) ∧
    s.n_discrete_columns = (discreteDims oi).length ∧
    s.n_categories = (discreteDims oi).sum := by
  have htot := init_ok_total h
  have hbound : ∀ p ∈ discStarts oi 0, p.1 + p.2 ≤ m.ncols := by
    intro p hp
    have := discStarts_bound oi 0 p hp
    omega
  rw [init_unfold m oi lf sm _ _ (buildRid_eq m oi 0 hbound),
    if_pos (by omega)] at h
  have hs := (Except.ok.inj h).symm
  subst hs
  simp [passTwo_eq, discreteDims_length]

/-! ### prefix-sum facts for the cond-vector offsets -/

theorem prefixSums_length :
    ∀ (ds : List Nat) (acc : Nat), (prefixSums ds acc).length = ds.length
  | [], _ => rfl
  | d :: ds, acc => by
    rw [prefixSums]
    simp [prefixSums_length ds]

theorem prefixSums_getD :
    ∀ (ds : List Nat) (acc c : Nat), c < ds.length →
      (prefixSums ds acc).getD c 0 = acc + (ds.take c).sum
  | [], _, c => by simp
  | d :: ds, acc, 0 => by
    intro _
    simp [prefixSums]
  | d :: ds, acc, c + 1 => by
    intro hc
    rw [prefixSums, List.getD_cons_succ,
      prefixSums_getD ds (acc + d) c (by simpa using hc)]
    rw [List.take_succ_cons, List.sum_cons]
    omega

theorem sum_take_le (ds : List Nat) (k : Nat) : (ds.take k).sum ≤ ds.sum := by
  conv_rhs => rw [← List.take_append_drop k ds]
  rw [List.sum_append]
  omega

theorem sum_take_getD {ds : List Nat} {c : Nat} (hc : c < ds.length) :
    (ds.take c).sum + ds.getD c 0 = (ds.take (c + 1)).sum := by
  rw [List.sum_take_succ ds c hc, List.getD_eq_getElem ds 0 hc]

theorem condSt_add_le_sum {ds : List Nat} {c : Nat} (hc : c < ds.length) :
    (prefixSums ds 0).getD c 0 + ds.getD c 0 ≤ ds.sum := by
  rw [prefixSums_getD ds 0 c hc, Nat.zero_add, sum_take_getD hc]
  exact sum_take_le ds (c + 1)

theorem getD_le_sum {ds : List Nat} {c : Nat} (hc : c < ds.length) :
    ds.getD c 0 ≤ ds.sum := by
  have := condSt_add_le_sum hc
  omega

/-! ### argmax facts -/

theorem getD_map_of_lt {α β : Type} (f : α → β) {l : List α} {i : Nat}
    (d : β) (d0 : α) (h : i < l.length) :
    (l.map f).getD i d = f (l.getD i d0) := by
  rw [List.getD_eq_getElem _ _ (by simpa using h), List.getD_eq_getElem _ _ h,
    List.getElem_map]

theorem firstTrue_some :
    ∀ (l : List Bool) (i : Nat), firstTrue l = some i →
      i < l.length ∧ l.getD i false = true ∧ ∀ j < i, l.getD j false = false
  | [], i => by simp [firstTrue]
  | b :: bs, i => by
    intro h
    by_cases hb : b
    · rw [firstTrue, if_pos hb] at h
      obtain rfl : i = 0 := by simpa using h.symm
      refine ⟨by simp, by simpa using hb, by omega⟩
    · rw [firstTrue, if_neg hb] at h
      obtain ⟨k, hk, rfl⟩ := Option.map_eq_some'.mp h
      obtain ⟨h1, h2, h3⟩ := firstTrue_some bs k hk
      refine ⟨by simpa using h1, by simpa using h2, ?_⟩
      intro j hj
      cases j with
      | zero => simpa using eq_false_of_ne_true hb
      | succ n =>
        rw [List.getD_cons_succ]
        exact h3 n (by omega)

theorem firstTrue_exists :
    ∀ (l : List Bool) (i : Nat), i < l.length → l.getD i false = true →
      ∃ k, firstTrue l = some k
  | [], i => by simp
  | b :: bs, i => by
    intro hi ht
    by_cases hb : b
    · exact ⟨0, by rw [firstTrue, if_pos hb]⟩
    · cases i with
      | zero => rw [List.getD_cons_zero] at ht; exact absurd ht hb
      | succ n =>
        rw [List.getD_cons_succ] at ht
        obtain ⟨k, hk⟩ := firstTrue_exists bs n (by simpa using hi) ht
        exact ⟨k + 1, by rw [firstTrue, if_neg hb, hk]; rfl⟩

theorem cumsum_length (l : List ℚ) : (cumsum l).length = l.length := by
  simp [cumsum]

theorem cumsum_getD {l : List ℚ} {i : Nat} (h : i < l.length) :
    (cumsum l).getD i 0 = (l.take (i + 1)).sum := by
  rw [cumsum, getD_map_range _ _ h]

theorem listMax_cons (x y : ℚ) (ys : List ℚ) :
    listMax (x :: y :: ys) = max x (listMax (y :: ys)) := rfl

theorem le_listMax : ∀ (l : List ℚ) (x : ℚ), x ∈ l → x ≤ listMax l
  | [], x => by simp
  | [y], x => by
    intro h
    obtain rfl : x = y := by simpa using h
    simp [listMax]
  | x' :: y :: ys, x => by
    intro h
    rcases List.mem_cons.mp h with rfl | h2
    · rw [listMax_cons]
      exact le_max_left _ _
    · rw [listMax_cons]
      exact le_trans (le_listMax (y :: ys) x h2) (le_max_right _ _)

theorem npArgmax_lt_length : ∀ (l : List ℚ), l ≠ [] → npArgmax l < l.length
  | [], h => absurd rfl h
  | [_], _ => by simp [npArgmax]
  | x :: y :: ys, _ => by
    rw [npArgmax]
    by_cases h : listMax (y :: ys) ≤ x
    · rw [if_pos h]
      simp
    · rw [if_neg h]
      have := npArgmax_lt_length (y :: ys) (by simp)
      simpa using this

theorem getD_npArgmax : ∀ (l : List ℚ), l ≠ [] →
    l.getD (npArgmax l) 0 = listMax l
  | [], h => absurd rfl h
  | [x], _ => by simp [npArgmax, listMax]
  | x :: y :: ys, _ => by
    rw [npArgmax]
    by_cases h : listMax (y :: ys) ≤ x
    · rw [if_pos h, listMax_cons]
      simp [max_eq_left h]
    · rw [if_neg h, List.getD_cons_succ, getD_npArgmax (y :: ys) (by simp),
        listMax_cons]
      exact (max_eq_right (le_of_lt (lt_of_not_le h))).symm

theorem npArgmax_maximizes {l : List ℚ} (hne : l ≠ []) {j : Nat}
    (hj : j < l.length) : l.getD j 0 ≤ l.getD (npArgmax l) 0 := by
  rw [getD_npArgmax l hne]
  refine le_listMax l _ ?_
  rw [List.getD_eq_getElem _ _ hj]
  exact List.getElem_mem _

/-! ### The inverse-CDF draw -/

theorem rcpiRow_spec (probs : List ℚ) (r : ℚ) (d : Nat)
    (hdle : d ≤ probs.length) (hr0 : 0 ≤ r)
    (hsum : r < (probs.take d).sum) :
    rcpiRow probs r < d ∧
    r < (probs.take (rcpiRow probs r + 1)).sum ∧
    ∀ j < rcpiRow probs r, (probs.take (j + 1)).sum ≤ r := by
  have hd : 0 < d := by
    rcases Nat.eq_zero_or_pos d with h0 | h
    · rw [h0] at hsum
      simp only [List.take_zero, List.sum_nil] at hsum
      exact absurd hsum (not_lt.mpr hr0)
    · exact h
  have hdm1 : d - 1 < probs.length := by omega
  have hcl : (cumsum probs).length = probs.length := cumsum_length probs
  have hbsd :
      ((cumsum probs).map (fun x => decide (r < x))).getD (d - 1) false
        = true := by
    rw [getD_map_of_lt _ false 0 (by omega), cumsum_getD hdm1,
      show d - 1 + 1 = d by omega]
    simpa using hsum
  obtain ⟨k, hk⟩ := firstTrue_exists _ (d - 1) (by simp; omega) hbsd
  obtain ⟨h1, h2, h3⟩ := firstTrue_some _ k hk
  have hargmax : rcpiRow probs r = k := by
    rw [rcpiRow, npArgmaxBool, hk]
    rfl
  have hklen : k < probs.length := by
    have := h1
    simp only [List.length_map, hcl] at this
    exact this
  have hkd : k < d := by
    by_contra hge
    have hdk : d - 1 < k := by omega
    have := h3 (d - 1) hdk
    rw [hbsd] at this
    exact absurd this (by simp)
  refine ⟨by rw [hargmax]; exact hkd, ?_, ?_⟩
  · have := h2
    rw [getD_map_of_lt _ false 0 (by omega), cumsum_getD hklen] at this
    rw [hargmax]
    exact of_decide_eq_true this
  · intro j hj
    rw [hargmax] at hj
    have := h3 j hj
    rw [getD_map_of_lt _ false 0 (by omega), cumsum_getD (by omega)] at this
    exact not_lt.mp (of_decide_eq_false this)

/-! ### Claim C10 -/

/-- Claim C10: for every successfully constructed sampler,
_discrete_column_matrix_st is the all-zero vector of length
n_discrete_columns — the constructor allocates it and never assigns any
column's matrix-span start into it — so every later read of a column's
matrix start (as done by sample_original_condvec and
generate_cond_from_condition_column_info) yields 0. -/
theorem c10_matrix_st_all_zero {m : Mat} {oi : List (List SpanInfo)}
    {lf : Bool} {sm : ℚ → ℚ} {s : DataSampler}
    (h : DataSampler.init m oi lf sm = .ok s) :
    s.discrete_column_matrix_st = List.replicate s.n_discrete_columns 0 ∧
    ∀ c : Nat, s.discrete_column_matrix_st.getD c 0 = 0 := by
  obtain ⟨-, -, h3, -⟩ := init_fields h
  refine ⟨h3, ?_⟩
  intro c
  rw [h3]
  by_cases hc : c < s.n_discrete_columns
  · rw [List.getD_eq_getElem _ _ (by simpa using hc)]
    simp
  · rw [List.getD_eq_default]
    simpa using Nat.le_of_not_lt hc

/-- Witness for C10 at a concrete sampler. -/
theorem c10_matrix_st_all_zero_witness :
    DataSampler.init mat1 oi1 false id = .ok sampler1 ∧
    (sampler1.discrete_column_matrix_st =
        List.replicate sampler1.n_discrete_columns 0 ∧
      ∀ c : Nat, sampler1.discrete_column_matrix_st.getD c 0 = 0) :=
  ⟨rfl, c10_matrix_st_all_zero
    (show DataSampler.init mat1 oi1 false id = .ok sampler1 from rfl)⟩

/-! ### Claim C3 -/

/-- Claim C3: construction succeeds if and only if the sum of all span
widths across all columns of the layout equals the encoded matrix's
column count (Invariant I1); on any violating pair the constructor
returns a fatal error instead of tolerating the mismatch. -/
theorem c3_construction_iff_layout_consistent (m : Mat)
    (oi : List (List SpanInfo)) (lf : Bool) (sm : ℚ → ℚ) :
    ((∃ s, DataSampler.init m oi lf sm = .ok s) ↔ totalDims oi = m.ncols) ∧
    (totalDims oi ≠ m.ncols →
      ∃ e, DataSampler.init m oi lf sm = .error e) := by
  constructor
  · constructor
    · rintro ⟨s, hs⟩
      exact init_ok_total hs
    · intro htot
      exact init_ok_of_total lf sm htot
  · intro hne
    cases hinit : DataSampler.init m oi lf sm with
    | error e => exact ⟨e, rfl⟩
    | ok s => exact absurd (init_ok_total hinit) hne

/-- Witness for C3 at a concrete consistent pair. -/
theorem c3_construction_witness :
    totalDims oi1 = mat1.ncols ∧
    (∃ s, DataSampler.init mat1 oi1 false id = .ok s) :=
  ⟨by decide,
    (c3_construction_iff_layout_consistent mat1 oi1 false id).1.mpr
      (by decide)⟩

/-! ### Claim C9 -/

/-- Claim C9: for every layout with no discrete columns and every matrix
consistent with it (Invariant I1), construction succeeds, all
per-discrete-column arrays are empty, sample_condvec and
sample_original_condvec return the none sentinel for every batch size,
and dim_cond_vec returns 0. -/
theorem c9_zero_discrete_degenerate (m : Mat) (oi : List (List SpanInfo))
    (lf : Bool) (sm : ℚ → ℚ)
    (hnod : ∀ l ∈ oi, is_discrete_column l = false)
    (htot : totalDims oi = m.ncols) :
    ∃ s, DataSampler.init m oi lf sm = .ok s ∧
      s.n_discrete_columns = 0 ∧
      s.rid_by_cat_cols = [] ∧
      s.discrete_column_matrix_st = [] ∧
      s.discrete_column_cond_st = [] ∧
      s.discrete_column_n_category = [] ∧
      s.discrete_column_category_prob = [] ∧
      s.dim_cond_vec = 0 ∧
      (∀ b ids rs, s.sample_condvec b ids rs = none) ∧
      (∀ b rowf colf, s.sample_original_condvec b rowf colf = none) := by
  obtain ⟨s, hs⟩ := init_ok_of_total lf sm htot
  obtain ⟨h1, h2, h3, h4, h5, h6, h7, h8⟩ := init_fields hs
  have hfilter : oi.filter is_discrete_column = [] := by
    rw [List.filter_eq_nil_iff]
    intro l hl
    rw [hnod l hl]
    simp
  have hdd : discreteDims oi = [] := by
    rw [discreteDims, hfilter]
    simp
  have hnd : s.n_discrete_columns = 0 := by
    rw [h7, hdd]
    rfl
  have hds : discStarts oi 0 = [] := by
    refine List.length_eq_zero.mp ?_
    rw [discStarts_length, hdd]
    simp
  refine ⟨s, hs, hnd, ?_, ?_, ?_, ?_, ?_, ?_, ?_, ?_⟩
  · rw [h2, hds]
    rfl
  · rw [h3, hnd]
    rfl
  · rw [h4, hdd]
    rfl
  · rw [h5, hdd]
  · rw [h6, hds]
    rfl
  · rw [DataSampler.dim_cond_vec, h8, hdd]
    rfl
  · intro b ids rs
    simp [DataSampler.sample_condvec, hnd]
  · intro b rowf colf
    simp [DataSampler.sample_original_condvec, hnd]

/-- Witness for C9 at a concrete no-discrete-column pair. -/
theorem c9_zero_discrete_witness :
    (∀ l ∈ oi9, is_discrete_column l = false) ∧
    totalDims oi9 = mat9.ncols ∧
    (∃ s, DataSampler.init mat9 oi9 false id = .ok s ∧
      s.n_discrete_columns = 0 ∧
      s.rid_by_cat_cols = [] ∧
      s.discrete_column_matrix_st = [] ∧
      s.discrete_column_cond_st = [] ∧
      s.discrete_column_n_category = [] ∧
      s.discrete_column_category_prob = [] ∧
      s.dim_cond_vec = 0 ∧
      (∀ b ids rs, s.sample_condvec b ids rs = none) ∧
      (∀ b rowf colf, s.sample_original_condvec b rowf colf = none)) :=
  ⟨by decide, by decide,
    c9_zero_discrete_degenerate mat9 oi9 false id (by decide) (by decide)⟩

/-! ### Claims C1 and C2 (matrix_st-based reads) -/

theorem matrixSt_getD_zero {m : Mat} {oi : List (List SpanInfo)} {lf : Bool}
    {sm : ℚ → ℚ} {s : DataSampler}
    (h : DataSampler.init m oi lf sm = .ok s) (c : Nat) :
    s.discrete_column_matrix_st.getD c 0 = 0 := by
  obtain ⟨-, -, h3, -⟩ := init_fields h
  rw [h3]
  by_cases hc : c < s.n_discrete_columns
  · rw [List.getD_eq_getElem _ _ (by simpa using hc)]
    simp
  · rw [List.getD_eq_default]
    simpa using Nat.le_of_not_lt hc

theorem ncat_le_ncategories {m : Mat} {oi : List (List SpanInfo)} {lf : Bool}
    {sm : ℚ → ℚ} {s : DataSampler}
    (h : DataSampler.init m oi lf sm = .ok s) {c : Nat}
    (hc : c < s.n_discrete_columns) :
    s.discrete_column_cond_st.getD c 0 +
      s.discrete_column_n_category.getD c 0 ≤ s.n_categories := by
  obtain ⟨-, -, -, h4, h5, -, h7, h8⟩ := init_fields h
  rw [h4, h5, h8]
  exact condSt_add_le_sum (by rw [← h7]; exact hc)

/-- Counterexample to claim C1 as stated: take the concrete sampler built
from two discrete columns of two categories each (sampler1), condition
descriptor (discrete column 1, value 0) and batch size 1.  The claim
requires the returned row to be one-hot at global conditioning position
cond_st[1] + 0 = 2; the code sets position matrix_st[1] + 0 = 0 instead,
so the entry at position 2 is 0 (the 1 sits at position 0). -/
theorem c1_generate_cond_counterexample :
    DataSampler.init mat1 oi1 false id = .ok sampler1 ∧
    sampler1.discrete_column_cond_st.getD 1 0 + 0 = 2 ∧
    ((sampler1.generate_cond_from_condition_column_info ⟨1, 0⟩ 1).getD 0
        []).getD 2 0 = 0 ∧
    ((sampler1.generate_cond_from_condition_column_info ⟨1, 0⟩ 1).getD 0
        []).getD 0 0 = 1 :=
  ⟨rfl, by decide, by decide, by decide⟩

/-- Claim C1 (amended): for every constructed sampler, condition
descriptor (d, v) with d a valid discrete-column id and v below column
d's category count, and batch size B,
generate_cond_from_condition_column_info returns a B × total_categories
matrix whose rows are all identical and one-hot at global position
matrix_st[d] + v — and since the stored matrix_st entry is always 0,
that position is v itself, not cond_start[d] + v. -/
theorem c1_generate_cond_amended {m : Mat} {oi : List (List SpanInfo)}
    {lf : Bool} {sm : ℚ → ℚ} {s : DataSampler}
    (h : DataSampler.init m oi lf sm = .ok s) (info : ColumnIdInfo)
    (hd : info.discrete_column_id < s.n_discrete_columns)
    (hv : info.value_id <
      s.discrete_column_n_category.getD info.discrete_column_id 0)
    (B : Nat) :
    (s.generate_cond_from_condition_column_info info B).length = B ∧
    s.discrete_column_matrix_st.getD info.discrete_column_id 0 = 0 ∧
    info.value_id < s.n_categories ∧
    ∀ i < B,
      ((s.generate_cond_from_condition_column_info info B).getD i []).length
          = s.n_categories ∧
      ((s.generate_cond_from_condition_column_info info B).getD i []).getD
          (s.discrete_column_matrix_st.getD info.discrete_column_id 0 +
            info.value_id) 0 = 1 ∧
      (∀ j, j ≠ s.discrete_column_matrix_st.getD info.discrete_column_id 0 +
          info.value_id →
        ((s.generate_cond_from_condition_column_info info B).getD i []).getD
          j 0 = 0) ∧
      ∀ i2 < B, (s.generate_cond_from_condition_column_info info B).getD i []
          = (s.generate_cond_from_condition_column_info info B).getD i2 [] := by
  have hz := matrixSt_getD_zero h info.discrete_column_id
  have hvn : info.value_id < s.n_categories := by
    have hle := ncat_le_ncategories h hd
    omega
  refine ⟨by simp [DataSampler.generate_cond_from_condition_column_info],
    hz, hvn, ?_⟩
  intro i hi
  have hrow : ∀ i0, i0 < B →
      (s.generate_cond_from_condition_column_info info B).getD i0 [] =
        oneHot s.n_categories
          (s.discrete_column_matrix_st.getD info.discrete_column_id 0 +
            info.value_id) := by
    intro i0 hi0
    rw [DataSampler.generate_cond_from_condition_column_info,
      getD_map_range _ _ hi0]
  refine ⟨?_, ?_, ?_, ?_⟩
  · rw [hrow i hi, oneHot_length]
  · rw [hrow i hi]
    refine oneHot_getD_self ?_
    omega
  · intro j hj
    rw [hrow i hi]
    exact oneHot_getD_ne hj
  · intro i2 hi2
    rw [hrow i hi, hrow i2 hi2]

/-- Witness for the amended C1 at a concrete input. -/
theorem c1_generate_cond_witness :
    DataSampler.init mat1 oi1 false id = .ok sampler1 ∧
    (1 < sampler1.n_discrete_columns ∧
      1 < sampler1.discrete_column_n_category.getD 1 0) ∧
    ((sampler1.generate_cond_from_condition_column_info ⟨1, 1⟩ 2).length = 2 ∧
      sampler1.discrete_column_matrix_st.getD 1 0 = 0 ∧
      1 < sampler1.n_categories ∧
      ∀ i < 2,
        ((sampler1.generate_cond_from_condition_column_info ⟨1, 1⟩ 2).getD i
            []).length = sampler1.n_categories ∧
        ((sampler1.generate_cond_from_condition_column_info ⟨1, 1⟩ 2).getD i
            []).getD (sampler1.discrete_column_matrix_st.getD 1 0 + 1) 0
            = 1 ∧
        (∀ j, j ≠ sampler1.discrete_column_matrix_st.getD 1 0 + 1 →
          ((sampler1.generate_cond_from_condition_column_info ⟨1, 1⟩ 2).getD i
            []).getD j 0 = 0) ∧
        ∀ i2 < 2,
          (sampler1.generate_cond_from_condition_column_info ⟨1, 1⟩ 2).getD i
              [] =
            (sampler1.generate_cond_from_condition_column_info ⟨1, 1⟩ 2).getD
              i2 []) :=
  ⟨rfl, ⟨by decide, by decide⟩,
    c1_generate_cond_amended
      (show DataSampler.init mat1 oi1 false id = .ok sampler1 from rfl)
      ⟨1, 1⟩ (by decide) (by decide) 2⟩

/-- Counterexample to claim C2 as stated: concrete sampler1, one batch
element with random row index 0 and random discrete column 1.  Column 1's
own one-hot span in the encoded matrix starts at matrix column 2 and row
0's argmax over that span is 1, so the claim requires the one-hot bit at
global position cond_st[1] + 1 = 3; the code reads the span starting at
the stored matrix_st value 0 instead, picks 1 at position 2, and the
output entry at position 3 is 0. -/
theorem c2_sample_original_counterexample :
    DataSampler.init mat1 oi1 false id = .ok sampler1 ∧
    (discStarts oi1 0).getD 1 (0, 0) = (2, 2) ∧
    sampler1.discrete_column_cond_st.getD 1 0 +
      npArgmax ((List.range 2).map (fun j => mat1.entry 0 (2 + j))) = 3 ∧
    ∃ out,
      sampler1.sample_original_condvec 1 (fun _ => 0) (fun _ => 1) =
        some out ∧
      (out.getD 0 []).getD 3 0 = 0 ∧ (out.getD 0 []).getD 2 0 = 1 :=
  ⟨rfl, by decide, by decide, ⟨_, rfl, by decide, by decide⟩⟩

/-- Claim C2 (amended): for every constructed sampler with at least one
discrete column, each output row i of sample_original_condvec is one-hot
at global position cond_st[c] + pick where c is the drawn column and pick
is the argmax of the drawn training row over the span starting at the
stored matrix_st[c] — which is always 0 — of width n_categories[c]; i.e.
the argmax is taken over the first n_categories[c] encoded matrix
columns, not over column c's own span. -/
theorem c2_sample_original_amended {m : Mat} {oi : List (List SpanInfo)}
    {lf : Bool} {sm : ℚ → ℚ} {s : DataSampler}
    (h : DataSampler.init m oi lf sm = .ok s)
    (hnd : 0 < s.n_discrete_columns) (batch : Nat) (rowf colf : Nat → Nat)
    (hcol : ∀ i < batch, colf i < s.n_discrete_columns)
    (hpos : ∀ i < batch,
      0 < s.discrete_column_n_category.getD (colf i) 0) :
    ∃ out, s.sample_original_condvec batch rowf colf = some out ∧
      out.length = batch ∧
      ∀ i < batch,
        s.discrete_column_matrix_st.getD (colf i) 0 = 0 ∧
        (out.getD i []).length = s.n_categories ∧
        (let d := s.discrete_column_n_category.getD (colf i) 0
         let pick := npArgmax
           ((List.range d).map (fun j => s.data.entry (rowf i) j))
         pick < d ∧
         (∀ j < d, s.data.entry (rowf i) j ≤ s.data.entry (rowf i) pick) ∧
         pick + s.discrete_column_cond_st.getD (colf i) 0 < s.n_categories ∧
         (out.getD i []).getD
           (pick + s.discrete_column_cond_st.getD (colf i) 0) 0 = 1 ∧
         ∀ j, j ≠ pick + s.discrete_column_cond_st.getD (colf i) 0 →
           (out.getD i []).getD j 0 = 0) := by
  have hout : s.sample_original_condvec batch rowf colf =
      some ((List.range batch).map (fun i0 =>
        let col_idx := colf i0
        let matrix_st := s.discrete_column_matrix_st.getD col_idx 0
        let dd := s.discrete_column_n_category.getD col_idx 0
        let pick := npArgmax ((List.range dd).map
          (fun j => s.data.entry (rowf i0) (matrix_st + j)))
        oneHot s.n_categories
          (pick + s.discrete_column_cond_st.getD col_idx 0))) := by
    rw [DataSampler.sample_original_condvec, if_neg (by omega)]
  refine ⟨_, hout, ?_, ?_⟩
  · simp
  · intro i hi
    have hz := matrixSt_getD_zero h (colf i)
    have hd0 := hpos i hi
    have hslen : ((List.range (s.discrete_column_n_category.getD (colf i) 0)).map
        (fun j => s.data.entry (rowf i) j)).length =
        s.discrete_column_n_category.getD (colf i) 0 := by simp
    have hsne : ((List.range (s.discrete_column_n_category.getD (colf i) 0)).map
        (fun j => s.data.entry (rowf i) j)) ≠ [] :=
      List.length_pos.mp (by rw [hslen]; omega)
    have hpick : npArgmax ((List.range
        (s.discrete_column_n_category.getD (colf i) 0)).map
        (fun j => s.data.entry (rowf i) j)) <
        s.discrete_column_n_category.getD (colf i) 0 := by
      have := npArgmax_lt_length _ hsne
      rw [hslen] at this
      exact this
    have hrow : (((List.range batch).map (fun i0 =>
        let col_idx := colf i0
        let matrix_st := s.discrete_column_matrix_st.getD col_idx 0
        let dd := s.discrete_column_n_category.getD col_idx 0
        let pick := npArgmax ((List.range dd).map
          (fun j => s.data.entry (rowf i0) (matrix_st + j)))
        oneHot s.n_categories
          (pick + s.discrete_column_cond_st.getD col_idx 0))).getD i []) =
        oneHot s.n_categories
          (npArgmax ((List.range
            (s.discrete_column_n_category.getD (colf i) 0)).map
            (fun j => s.data.entry (rowf i) j)) +
            s.discrete_column_cond_st.getD (colf i) 0) := by
      rw [getD_map_range _ _ hi]
      simp only [hz, Nat.zero_add]
    have hle := ncat_le_ncategories h (hcol i hi)
    refine ⟨hz, ?_, hpick, ?_, ?_, ?_, ?_⟩
    · rw [hrow, oneHot_length]
    · intro j hj
      have h1 : ((List.range (s.discrete_column_n_category.getD (colf i)
          0)).map (fun j => s.data.entry (rowf i) j)).getD j 0 =
          s.data.entry (rowf i) j :=
        getD_map_range _ _ (by omega)
      have h2 : ((List.range (s.discrete_column_n_category.getD (colf i)
          0)).map (fun j => s.data.entry (rowf i) j)).getD
          (npArgmax ((List.range (s.discrete_column_n_category.getD (colf i)
            0)).map (fun j => s.data.entry (rowf i) j))) 0 =
          s.data.entry (rowf i) (npArgmax ((List.range
            (s.discrete_column_n_category.getD (colf i) 0)).map
            (fun j => s.data.entry (rowf i) j))) :=
        getD_map_range _ _ (by omega)
      have hmax := npArgmax_maximizes hsne
        (show j < ((List.range (s.discrete_column_n_category.getD (colf i)
          0)).map (fun j => s.data.entry (rowf i) j)).length by omega)
      rw [h1, h2] at hmax
      exact hmax
    · omega
    · rw [hrow]
      exact oneHot_getD_self (by omega)
    · intro j hj
      rw [hrow]
      exact oneHot_getD_ne hj

/-- Witness for the amended C2 at a concrete input. -/
theorem c2_sample_original_witness :
    DataSampler.init mat1 oi1 false id = .ok sampler1 ∧
    (0 < sampler1.n_discrete_columns ∧
      (∀ i < 1, (fun _ => 1 : Nat → Nat) i < sampler1.n_discrete_columns) ∧
      (∀ i < 1, 0 < sampler1.discrete_column_n_category.getD
        ((fun _ => 1 : Nat → Nat) i) 0)) ∧
    (∃ out,
      sampler1.sample_original_condvec 1 (fun _ => 0) (fun _ => 1) =
        some out ∧
      out.length = 1 ∧
      ∀ i < 1,
        sampler1.discrete_column_matrix_st.getD
          ((fun _ => 1 : Nat → Nat) i) 0 = 0 ∧
        (out.getD i []).length = sampler1.n_categories ∧
        (let d := sampler1.discrete_column_n_category.getD
          ((fun _ => 1 : Nat → Nat) i) 0
         let pick := npArgmax ((List.range d).map
           (fun j => sampler1.data.entry ((fun _ => 0 : Nat → Nat) i) j))
         pick < d ∧
         (∀ j < d, sampler1.data.entry ((fun _ => 0 : Nat → Nat) i) j ≤
           sampler1.data.entry ((fun _ => 0 : Nat → Nat) i) pick) ∧
         pick + sampler1.discrete_column_cond_st.getD
           ((fun _ => 1 : Nat → Nat) i) 0 < sampler1.n_categories ∧
         (out.getD i []).getD (pick + sampler1.discrete_column_cond_st.getD
           ((fun _ => 1 : Nat → Nat) i) 0) 0 = 1 ∧
         ∀ j, j ≠ pick + sampler1.discrete_column_cond_st.getD
             ((fun _ => 1 : Nat → Nat) i) 0 →
           (out.getD i []).getD j 0 = 0)) :=
  ⟨rfl, ⟨by decide, by decide, by decide⟩,
    c2_sample_original_amended
      (show DataSampler.init mat1 oi1 false id = .ok sampler1 from rfl)
      (by decide) 1 (fun _ => 0) (fun _ => 1) (by decide) (by decide)⟩

/-! ### Claim C6 -/

theorem smoothFreq_length (lf : Bool) (sm : ℚ → ℚ) (freq : List ℚ) :
    (smoothFreq lf sm freq).length = freq.length := by
  cases lf <;> simp [smoothFreq]

theorem categoryFreq_length (m : Mat) (st d : Nat) :
    (categoryFreq m st d).length = d := by
  simp [categoryFreq]

theorem probRow_length (lf : Bool) (sm : ℚ → ℚ) (m : Mat)
    (st d maxcat : Nat) :
    (probRow lf sm m st d maxcat).length = d + (maxcat - d) := by
  rw [probRow]
  simp [smoothFreq_length, categoryFreq_length]

theorem init_prob_ncat {m : Mat} {oi : List (List SpanInfo)} {lf : Bool}
    {sm : ℚ → ℚ} {s : DataSampler}
    (h : DataSampler.init m oi lf sm = .ok s) {c : Nat}
    (hc : c < s.n_discrete_columns) :
    s.discrete_column_category_prob.getD c [] =
      probRow lf sm m ((discStarts oi 0).getD c (0, 0)).1
        ((discStarts oi 0).getD c (0, 0)).2 (maxCategory oi) ∧
    s.discrete_column_n_category.getD c 0 =
      ((discStarts oi 0).getD c (0, 0)).2 := by
  obtain ⟨-, -, -, -, h5, h6, h7, -⟩ := init_fields h
  have hlen : c < (discStarts oi 0).length := by
    rw [discStarts_length]
    omega
  constructor
  · rw [h6, getD_map_of_lt _ [] (0, 0) hlen]
  · rw [h5, ← discStarts_snd oi 0, getD_map_of_lt _ 0 (0, 0) hlen]

theorem ncat_le_prob_length {m : Mat} {oi : List (List SpanInfo)} {lf : Bool}
    {sm : ℚ → ℚ} {s : DataSampler}
    (h : DataSampler.init m oi lf sm = .ok s) {c : Nat}
    (hc : c < s.n_discrete_columns) :
    s.discrete_column_n_category.getD c 0 ≤
      (s.discrete_column_category_prob.getD c []).length := by
  obtain ⟨hp, hn⟩ := init_prob_ncat h hc
  rw [hp, hn, probRow_length]
  omega

/-- Claim C6: for every constructed sampler, every vector of valid
discrete-column ids and every vector of uniform draws, each batch element
of _random_choice_prob_index is the index of the first entry of the
cumulative sum of the selected column's stored probability row that
exceeds that element's draw; and given that the row sums to 1 over the
column's true category range and the draw lies in [0, 1), the returned
index is strictly below the true category count, so a padded
zero-probability slot is never selected. -/
theorem c6_random_choice_first_crossing {m : Mat}
    {oi : List (List SpanInfo)} {lf : Bool} {sm : ℚ → ℚ} {s : DataSampler}
    (h : DataSampler.init m oi lf sm = .ok s) (ids : Nat → Nat)
    (rs : Nat → ℚ) (batch : Nat) (i : Nat) (hi : i < batch)
    (hid : ids i < s.n_discrete_columns)
    (hsum : ((s.discrete_column_category_prob.getD (ids i) []).take
      (s.discrete_column_n_category.getD (ids i) 0)).sum = 1)
    (hr0 : 0 ≤ rs i) (hr1 : rs i < 1) :
    (s.random_choice_prob_index ids rs batch).getD i 0 <
      s.discrete_column_n_category.getD (ids i) 0 ∧
    rs i < ((s.discrete_column_category_prob.getD (ids i) []).take
      ((s.random_choice_prob_index ids rs batch).getD i 0 + 1)).sum ∧
    ∀ j < (s.random_choice_prob_index ids rs batch).getD i 0,
      ((s.discrete_column_category_prob.getD (ids i) []).take (j + 1)).sum
        ≤ rs i := by
  have hidx : (s.random_choice_prob_index ids rs batch).getD i 0 =
      rcpiRow (s.discrete_column_category_prob.getD (ids i) []) (rs i) := by
    rw [DataSampler.random_choice_prob_index, getD_map_range _ _ hi]
  have hdle := ncat_le_prob_length h hid
  have hspec := rcpiRow_spec (s.discrete_column_category_prob.getD (ids i) [])
    (rs i) (s.discrete_column_n_category.getD (ids i) 0) hdle hr0
    (by rw [hsum]; exact hr1)
  rw [hidx]
  exact hspec

/-- Witness for C6 at a concrete input. -/
theorem c6_random_choice_witness :
    DataSampler.init mat1 oi1 false id = .ok sampler1 ∧
    ((fun _ => 0 : Nat → Nat) 0 < sampler1.n_discrete_columns ∧
      ((sampler1.discrete_column_category_prob.getD 0 []).take
        (sampler1.discrete_column_n_category.getD 0 0)).sum = 1 ∧
      (0 : ℚ) ≤ 1/3 ∧ (1/3 : ℚ) < 1) ∧
    ((sampler1.random_choice_prob_index (fun _ => 0) (fun _ => 1/3) 1).getD
        0 0 < sampler1.discrete_column_n_category.getD 0 0 ∧
      (1/3 : ℚ) < ((sampler1.discrete_column_category_prob.getD 0 []).take
        ((sampler1.random_choice_prob_index (fun _ => 0) (fun _ => 1/3)
          1).getD 0 0 + 1)).sum ∧
      ∀ j < (sampler1.random_choice_prob_index (fun _ => 0)
          (fun _ => 1/3) 1).getD 0 0,
        ((sampler1.discrete_column_category_prob.getD 0 []).take
          (j + 1)).sum ≤ (1/3 : ℚ)) :=
  ⟨rfl,
    ⟨by decide,
      by norm_num [sampler1, DataSampler.init, buildRid, passTwo, probRow,
        smoothFreq, categoryFreq, maxCategory, discreteDims,
        is_discrete_column, sumDims, nonzeroRows, Mat.entry, Mat.nrows, mat1,
        oi1, List.range_succ, Except.toOption],
      by norm_num, by norm_num⟩,
    c6_random_choice_first_crossing
      (show DataSampler.init mat1 oi1 false id = .ok sampler1 from rfl)
      (fun _ => 0) (fun _ => 1/3) 1 0 (by decide) (by decide)
      (by norm_num [sampler1, DataSampler.init, buildRid, passTwo, probRow,
        smoothFreq, categoryFreq, maxCategory, discreteDims,
        is_discrete_column, sumDims, nonzeroRows, Mat.entry, Mat.nrows, mat1,
        oi1, List.range_succ, Except.toOption])
      (by norm_num) (by norm_num)⟩

/-! ### Claim C4 -/

/-- Claim C4: for every constructed sampler with at least one discrete
column and every batch size, sample_condvec returns four batch-aligned
results: a (batch x total_categories) conditioning matrix whose row i has
exactly one 1, at position cond_st[column id of row i] + category id of
row i; a (batch x n_discrete_columns) mask whose row i has exactly one 1,
at the returned column id; and the two id vectors of length batch.  The
probability rows of the drawn columns are assumed normalised over their
true category range (the constructed state guarantees this whenever the
smoothed frequency sum is nonzero) and the uniform draws lie in [0, 1). -/
theorem c4_sample_condvec_shape {m : Mat} {oi : List (List SpanInfo)}
    {lf : Bool} {sm : ℚ → ℚ} {s : DataSampler}
    (h : DataSampler.init m oi lf sm = .ok s)
    (hnd : 0 < s.n_discrete_columns) (batch : Nat) (ids : Nat → Nat)
    (rs : Nat → ℚ)
    (hid : ∀ i < batch, ids i < s.n_discrete_columns)
    (hsum : ∀ i < batch,
      ((s.discrete_column_category_prob.getD (ids i) []).take
        (s.discrete_column_n_category.getD (ids i) 0)).sum = 1)
    (hr : ∀ i < batch, 0 ≤ rs i ∧ rs i < 1) :
    ∃ cond mask dvec cvec,
      s.sample_condvec batch ids rs = some (cond, mask, dvec, cvec) ∧
      cond.length = batch ∧ mask.length = batch ∧ dvec.length = batch ∧
      cvec.length = batch ∧
      ∀ i < batch,
        (cond.getD i []).length = s.n_categories ∧
        (mask.getD i []).length = s.n_discrete_columns ∧
        dvec.getD i 0 = ids i ∧
        dvec.getD i 0 < s.n_discrete_columns ∧
        cvec.getD i 0 <
          s.discrete_column_n_category.getD (dvec.getD i 0) 0 ∧
        s.discrete_column_cond_st.getD (dvec.getD i 0) 0 + cvec.getD i 0 <
          s.n_categories ∧
        (cond.getD i []).getD
          (s.discrete_column_cond_st.getD (dvec.getD i 0) 0 +
            cvec.getD i 0) 0 = 1 ∧
        (∀ j, j ≠ s.discrete_column_cond_st.getD (dvec.getD i 0) 0 +
            cvec.getD i 0 → (cond.getD i []).getD j 0 = 0) ∧
        (mask.getD i []).getD (dvec.getD i 0) 0 = 1 ∧
        (∀ j, j ≠ dvec.getD i 0 → (mask.getD i []).getD j 0 = 0) := by
  have hout : s.sample_condvec batch ids rs =
      some ((List.range batch).map (fun i =>
          oneHot s.n_categories
            (((List.range batch).map (fun i0 =>
              s.discrete_column_cond_st.getD (ids i0) 0 +
                (s.random_choice_prob_index ids rs batch).getD i0 0)).getD
              i 0)),
        (List.range batch).map (fun i =>
          oneHot s.n_discrete_columns (ids i)),
        (List.range batch).map ids,
        s.random_choice_prob_index ids rs batch) := by
    rw [DataSampler.sample_condvec, if_neg (by omega)]
  refine ⟨_, _, _, _, hout, by simp, by simp, by simp, ?_, ?_⟩
  · rw [DataSampler.random_choice_prob_index]
    simp
  · intro i hi
    have hidv : ((List.range batch).map ids).getD i 0 = ids i :=
      getD_map_range _ _ hi
    have hcv : (s.random_choice_prob_index ids rs batch).getD i 0 =
        rcpiRow (s.discrete_column_category_prob.getD (ids i) []) (rs i) := by
      rw [DataSampler.random_choice_prob_index, getD_map_range _ _ hi]
    have hdle := ncat_le_prob_length h (hid i hi)
    have hspec := rcpiRow_spec
      (s.discrete_column_category_prob.getD (ids i) []) (rs i)
      (s.discrete_column_n_category.getD (ids i) 0) hdle (hr i hi).1
      (by rw [hsum i hi]; exact (hr i hi).2)
    have hcat : (s.random_choice_prob_index ids rs batch).getD i 0 <
        s.discrete_column_n_category.getD (ids i) 0 := by
      rw [hcv]
      exact hspec.1
    have hcid : (((List.range batch).map (fun i0 =>
        s.discrete_column_cond_st.getD (ids i0) 0 +
          (s.random_choice_prob_index ids rs batch).getD i0 0)).getD i 0) =
        s.discrete_column_cond_st.getD (ids i) 0 +
          (s.random_choice_prob_index ids rs batch).getD i 0 :=
      getD_map_range _ _ hi
    have hcond : (((List.range batch).map (fun i1 =>
        oneHot s.n_categories
          (((List.range batch).map (fun i0 =>
            s.discrete_column_cond_st.getD (ids i0) 0 +
              (s.random_choice_prob_index ids rs batch).getD i0 0)).getD
            i1 0))).getD i []) =
        oneHot s.n_categories
          (s.discrete_column_cond_st.getD (ids i) 0 +
            (s.random_choice_prob_index ids rs batch).getD i 0) := by
      rw [getD_map_range _ _ hi, hcid]
    have hmask : (((List.range batch).map (fun i0 =>
        oneHot s.n_discrete_columns (ids i0))).getD i []) =
        oneHot s.n_discrete_columns (ids i) :=
      getD_map_range _ _ hi
    have hbound : s.discrete_column_cond_st.getD (ids i) 0 +
        (s.random_choice_prob_index ids rs batch).getD i 0 <
        s.n_categories := by
      have := ncat_le_ncategories h (hid i hi)
      omega
    rw [hidv]
    refine ⟨?_, ?_, rfl, hid i hi, hcat, hbound, ?_, ?_, ?_, ?_⟩
    · rw [hcond, oneHot_length]
    · rw [hmask, oneHot_length]
    · rw [hcond]
      exact oneHot_getD_self hbound
    · intro j hj
      rw [hcond]
      exact oneHot_getD_ne hj
    · rw [hmask]
      exact oneHot_getD_self (hid i hi)
    · intro j hj
      rw [hmask]
      exact oneHot_getD_ne hj

/-- Witness for C4 at a concrete input. -/
theorem c4_sample_condvec_witness :
    DataSampler.init mat1 oi1 false id = .ok sampler1 ∧
    (0 < sampler1.n_discrete_columns ∧
      (∀ i < 1, (fun _ => 0 : Nat → Nat) i < sampler1.n_discrete_columns) ∧
      (∀ i < 1,
        ((sampler1.discrete_column_category_prob.getD
          ((fun _ => 0 : Nat → Nat) i) []).take
          (sampler1.discrete_column_n_category.getD
            ((fun _ => 0 : Nat → Nat) i) 0)).sum = 1) ∧
      (∀ i < 1, (0 : ℚ) ≤ (fun _ => (1/3 : ℚ)) i ∧
        (fun _ => (1/3 : ℚ)) i < 1)) ∧
    (∃ cond mask dvec cvec,
      sampler1.sample_condvec 1 (fun _ => 0) (fun _ => 1/3) =
        some (cond, mask, dvec, cvec) ∧
      cond.length = 1 ∧ mask.length = 1 ∧ dvec.length = 1 ∧
      cvec.length = 1 ∧
      ∀ i < 1,
        (cond.getD i []).length = sampler1.n_categories ∧
        (mask.getD i []).length = sampler1.n_discrete_columns ∧
        dvec.getD i 0 = (fun _ => 0 : Nat → Nat) i ∧
        dvec.getD i 0 < sampler1.n_discrete_columns ∧
        cvec.getD i 0 <
          sampler1.discrete_column_n_category.getD (dvec.getD i 0) 0 ∧
        sampler1.discrete_column_cond_st.getD (dvec.getD i 0) 0 +
          cvec.getD i 0 < sampler1.n_categories ∧
        (cond.getD i []).getD
          (sampler1.discrete_column_cond_st.getD (dvec.getD i 0) 0 +
            cvec.getD i 0) 0 = 1 ∧
        (∀ j, j ≠ sampler1.discrete_column_cond_st.getD (dvec.getD i 0) 0 +
            cvec.getD i 0 → (cond.getD i []).getD j 0 = 0) ∧
        (mask.getD i []).getD (dvec.getD i 0) 0 = 1 ∧
        (∀ j, j ≠ dvec.getD i 0 → (mask.getD i []).getD j 0 = 0)) :=
  ⟨rfl,
    ⟨by decide, by decide,
      by
        intro i hi
        norm_num [sampler1, DataSampler.init, buildRid, passTwo, probRow,
          smoothFreq, categoryFreq, maxCategory, discreteDims,
          is_discrete_column, sumDims, nonzeroRows, Mat.entry, Mat.nrows,
          mat1, oi1, List.range_succ, Except.toOption],
      by intro i hi; norm_num⟩,
    c4_sample_condvec_shape
      (show DataSampler.init mat1 oi1 false id = .ok sampler1 from rfl)
      (by decide) 1 (fun _ => 0) (fun _ => 1/3) (by decide)
      (by
        intro i hi
        norm_num [sampler1, DataSampler.init, buildRid, passTwo, probRow,
          smoothFreq, categoryFreq, maxCategory, discreteDims,
          is_discrete_column, sumDims, nonzeroRows, Mat.entry, Mat.nrows,
          mat1, oi1, List.range_succ, Except.toOption])
      (by intro i hi; norm_num)⟩

/-! ### Claims C5 and C8 (sample_data) -/

theorem rid_mem {m : Mat} {oi : List (List SpanInfo)} {lf : Bool}
    {sm : ℚ → ℚ} {s : DataSampler}
    (h : DataSampler.init m oi lf sm = .ok s) {c o r : Nat}
    (hr : r ∈ (s.rid_by_cat_cols.getD c []).getD o []) :
    r < m.nrows ∧
    (m.rows.getD r []).getD (((discStarts oi 0).getD c (0, 0)).1 + o) 0
      ≠ 0 := by
  obtain ⟨-, h2, -⟩ := init_fields h
  rw [h2] at hr
  by_cases hc : c < (discStarts oi 0).length
  · rw [getD_map_of_lt _ [] (0, 0) hc] at hr
    by_cases ho : o < ((discStarts oi 0).getD c (0, 0)).2
    · rw [getD_map_range _ _ ho] at hr
      rw [nonzeroRows, List.mem_filter] at hr
      obtain ⟨hmem, hne⟩ := hr
      refine ⟨List.mem_range.mp hmem, ?_⟩
      simpa [Mat.entry] using hne
    · rw [List.getD_eq_default _ _
        (by rw [List.length_map, List.length_range]; omega)] at hr
      simp at hr
  · have hx : ((discStarts oi 0).map
        (fun p => (List.range p.2).map
          (fun j => nonzeroRows m (p.1 + j)))).getD c [] = [] :=
      List.getD_eq_default _ _ (by rw [List.length_map]; omega)
    rw [hx] at hr
    simp at hr

theorem sample_data_rows_ok (s : DataSampler) :
    ∀ (col opt : List Nat) (pickf : Nat → Nat) (k : Nat),
      (∀ i, i < col.length → i < opt.length →
        pickf (k + i) <
          ((s.rid_by_cat_cols.getD (col.getD i 0) []).getD
            (opt.getD i 0) []).length) →
      ∃ out, s.sample_data_rows col opt pickf k = .ok out ∧
        out.length = min col.length opt.length ∧
        ∀ i, i < col.length → i < opt.length →
          ∃ r, r ∈ (s.rid_by_cat_cols.getD (col.getD i 0) []).getD
              (opt.getD i 0) [] ∧
            out.getD i [] = s.data.rows.getD r []
  | [], opt, pickf, k => by
    intro _
    exact ⟨[], rfl, by simp, by intro i h1 h2; simp at h1⟩
  | c :: cs, [], pickf, k => by
    intro _
    exact ⟨[], rfl, by simp, by intro i h1 h2; simp at h2⟩
  | c :: cs, o :: os, pickf, k => by
    intro hpick
    have h0 := hpick 0 (by simp) (by simp)
    rw [Nat.add_zero] at h0
    simp only [List.getD_cons_zero] at h0
    have harr : ((s.rid_by_cat_cols.getD c []).getD o []).isEmpty = false := by
      rw [List.isEmpty_eq_false_iff_exists_mem]
      have := List.getD_eq_getElem _ 0 h0
      exact ⟨_, this ▸ List.getElem_mem _⟩
    obtain ⟨out', hout', hlen', hmem'⟩ :=
      sample_data_rows_ok s cs os pickf (k + 1) (by
        intro i hi1 hi2
        have := hpick (i + 1) (by simpa using hi1) (by simpa using hi2)
        rw [show k + 1 + i = k + (i + 1) by omega]
        simpa using this)
    refine ⟨((s.data.rows.getD
        (((s.rid_by_cat_cols.getD c []).getD o []).getD (pickf k) 0) [])
        :: out'), ?_, ?_, ?_⟩
    · rw [DataSampler.sample_data_rows]
      rw [if_neg (by rw [harr]; simp), hout']
    · simp only [List.length_cons, hlen']
      omega
    · intro i hi1 hi2
      cases i with
      | zero =>
        refine ⟨((s.rid_by_cat_cols.getD c []).getD o []).getD (pickf k) 0,
          ?_, ?_⟩
        · rw [List.getD_eq_getElem _ 0 h0]
          exact List.getElem_mem _
        · simp
      | succ i =>
        obtain ⟨r, hrmem, hrout⟩ := hmem' i (by simpa using hi1)
          (by simpa using hi2)
        exact ⟨r, by simpa using hrmem, by simpa using hrout⟩

theorem sample_data_rows_error (s : DataSampler) :
    ∀ (col opt : List Nat) (pickf : Nat → Nat) (k : Nat) (i : Nat),
      i < col.length → i < opt.length →
      (s.rid_by_cat_cols.getD (col.getD i 0) []).getD (opt.getD i 0) []
        = [] →
      ∃ e, s.sample_data_rows col opt pickf k = .error e
  | [], opt, pickf, k, i => by
    intro hi
    simp at hi
  | c :: cs, [], pickf, k, i => by
    intro _ hi
    simp at hi
  | c :: cs, o :: os, pickf, k, i => by
    intro hi1 hi2 hempty
    by_cases he : ((s.rid_by_cat_cols.getD c []).getD o []).isEmpty
    · refine ⟨"cannot take a random choice from an empty list", ?_⟩
      rw [DataSampler.sample_data_rows, if_pos he]
    · cases i with
      | zero =>
        simp only [List.getD_cons_zero] at hempty
        rw [hempty] at he
        simp at he
      | succ i =>
        simp only [List.getD_cons_succ] at hempty
        obtain ⟨e, herr⟩ := sample_data_rows_error s cs os pickf (k + 1) i
          (by simpa using hi1) (by simpa using hi2) hempty
        refine ⟨e, ?_⟩
        rw [DataSampler.sample_data_rows, if_neg he, herr]


/-- Claim C5: for sample_data with a non-None col, col and opt being
equal-length sequences of valid draws, the result has exactly len(col)
rows and row i is a training row drawn from the row-index set of the pair
(col i, opt i), hence its encoded value at column (col i)'s one-hot block
is nonzero at category (opt i); with col = None the result is n rows
drawn (with replacement) from the full training matrix. -/
theorem c5_sample_data_conformance {m : Mat} {oi : List (List SpanInfo)}
    {lf : Bool} {sm : ℚ → ℚ} {s : DataSampler}
    (h : DataSampler.init m oi lf sm = .ok s) :
    (∀ (col opt : List Nat) (pickf idxf : Nat → Nat) (n : Nat),
      opt.length = col.length →
      (∀ i < col.length, pickf i <
        ((s.rid_by_cat_cols.getD (col.getD i 0) []).getD
          (opt.getD i 0) []).length) →
      ∃ out, s.sample_data n (some col) opt idxf pickf = .ok out ∧
        out.length = col.length ∧
        ∀ i < col.length, ∃ r,
          r ∈ (s.rid_by_cat_cols.getD (col.getD i 0) []).getD
            (opt.getD i 0) [] ∧
          out.getD i [] = m.rows.getD r [] ∧
          r < m.nrows ∧
          (out.getD i []).getD
            (((discStarts oi 0).getD (col.getD i 0) (0, 0)).1 +
              opt.getD i 0) 0 ≠ 0) ∧
    (∀ (opt : List Nat) (pickf idxf : Nat → Nat) (n : Nat),
      (∀ i < n, idxf i < m.nrows) →
      ∃ out, s.sample_data n none opt idxf pickf = .ok out ∧
        out.length = n ∧
        ∀ i < n, out.getD i [] = m.rows.getD (idxf i) []) := by
  have hdata : s.data = m := (init_fields h).1
  constructor
  · intro col opt pickf idxf n hlen hpick
    obtain ⟨out, hout, holen, hmem⟩ := sample_data_rows_ok s col opt pickf 0
      (by
        intro i hi1 hi2
        rw [Nat.zero_add]
        exact hpick i hi1)
    refine ⟨out, hout, by rw [holen]; omega, ?_⟩
    intro i hi
    obtain ⟨r, hrmem, hrout⟩ := hmem i hi (by omega)
    obtain ⟨hrlt, hrnz⟩ := rid_mem h hrmem
    rw [hdata] at hrout
    exact ⟨r, hrmem, hrout, hrlt, by rw [hrout]; exact hrnz⟩
  · intro opt pickf idxf n hidx
    refine ⟨(List.range n).map (fun i => m.rows.getD (idxf i) []), ?_,
      by simp, ?_⟩
    · show Except.ok ((List.range n).map
        (fun i => s.data.rows.getD (idxf i) [])) = _
      rw [hdata]
    · intro i hi
      rw [getD_map_range _ _ hi]

/-- Witness for C5 at a concrete input: conditioned draws (column 0,
category 1) and (column 1, category 0), both satisfied only by training
row 1, and an unconditioned draw of both rows. -/
theorem c5_sample_data_witness :
    DataSampler.init mat1 oi1 false id = .ok sampler1 ∧
    ([1, 0].length = [0, 1].length ∧
      (∀ i < [0, 1].length, (fun _ => 0 : Nat → Nat) i <
        ((sampler1.rid_by_cat_cols.getD ([0, 1].getD i 0) []).getD
          ([1, 0].getD i 0) []).length)) ∧
    (∃ out, sampler1.sample_data 0 (some [0, 1]) [1, 0] (fun i => i)
        (fun _ => 0) = .ok out ∧
      out.length = [0, 1].length ∧
      ∀ i < [0, 1].length, ∃ r,
        r ∈ (sampler1.rid_by_cat_cols.getD ([0, 1].getD i 0) []).getD
          ([1, 0].getD i 0) [] ∧
        out.getD i [] = mat1.rows.getD r [] ∧
        r < mat1.nrows ∧
        (out.getD i []).getD
          (((discStarts oi1 0).getD ([0, 1].getD i 0) (0, 0)).1 +
            [1, 0].getD i 0) 0 ≠ 0) ∧
    (∃ out, sampler1.sample_data 2 none [] (fun i => i) (fun _ => 0)
        = .ok out ∧
      out.length = 2 ∧
      ∀ i < 2, out.getD i [] = mat1.rows.getD ((fun i => i : Nat → Nat) i)
        []) :=
  ⟨rfl, ⟨by decide, by decide⟩,
    (c5_sample_data_conformance
      (show DataSampler.init mat1 oi1 false id = .ok sampler1 from rfl)).1
      [0, 1] [1, 0] (fun _ => 0) (fun i => i) 0 (by decide) (by decide),
    (c5_sample_data_conformance
      (show DataSampler.init mat1 oi1 false id = .ok sampler1 from rfl)).2
      [] (fun _ => 0) (fun i => i) 2 (by decide)⟩

/-- Claim C8: for sample_data with a non-None col, if for some index i the
row-index set of the pair (col i, opt i) is empty, the call returns an
error that propagates to the caller; it never substitutes a row from
another category or column. -/
theorem c8_empty_category_error {m : Mat} {oi : List (List SpanInfo)}
    {lf : Bool} {sm : ℚ → ℚ} {s : DataSampler}
    (h : DataSampler.init m oi lf sm = .ok s) (col opt : List Nat)
    (pickf idxf : Nat → Nat) (n i : Nat) (hic : i < col.length)
    (hio : i < opt.length)
    (hempty : (s.rid_by_cat_cols.getD (col.getD i 0) []).getD
      (opt.getD i 0) [] = []) :
    ∃ e, s.sample_data n (some col) opt idxf pickf = .error e := by
  obtain ⟨e, herr⟩ := sample_data_rows_error s col opt pickf 0 i hic hio
    hempty
  exact ⟨e, herr⟩

/-- Witness for C8 at a concrete input: in sampler8 the single discrete
column never takes category 1, so its row-index set is empty and
sample_data errors. -/
theorem c8_empty_category_witness :
    DataSampler.init mat8 oi8 false id = .ok sampler8 ∧
    (0 < [0].length ∧ 0 < [1].length ∧
      (sampler8.rid_by_cat_cols.getD ([0].getD 0 0) []).getD
        ([1].getD 0 0) [] = []) ∧
    (∃ e, sampler8.sample_data 1 (some [0]) [1] (fun i => i) (fun _ => 0)
      = .error e) :=
  ⟨rfl, ⟨by decide, by decide, by decide⟩,
    c8_empty_category_error
      (show DataSampler.init mat8 oi8 false id = .ok sampler8 from rfl)
      [0] [1] (fun _ => 0) (fun i => i) 1 0 (by decide) (by decide)
      (by decide)⟩

/-! ### Claim C7 -/

theorem getD_replicate_self {α : Type} (x : α) (n k : Nat) :
    (List.replicate n x).getD k x = x := by
  by_cases hk : k < n
  · rw [List.getD_eq_getElem _ _ (by simpa using hk)]
    simp
  · rw [List.getD_eq_default _ _ (by simpa using Nat.le_of_not_lt hk)]

theorem categoryFreq_nonneg {m : Mat} {st d : Nat}
    (hnn : ∀ i, i < m.nrows → ∀ j, j < d → 0 ≤ m.entry i (st + j)) :
    ∀ x ∈ categoryFreq m st d, 0 ≤ x := by
  intro x hx
  rw [categoryFreq] at hx
  obtain ⟨j, hj, rfl⟩ := List.mem_map.mp hx
  refine List.sum_nonneg ?_
  intro y hy
  obtain ⟨i, hi, rfl⟩ := List.mem_map.mp hy
  exact hnn i (List.mem_range.mp hi) j (List.mem_range.mp hj)

theorem smoothFreqR_nonneg {lf : Bool} {freq : List ℚ}
    (hf : ∀ x ∈ freq, 0 ≤ x) : ∀ x ∈ smoothFreqR lf freq, 0 ≤ x := by
  intro x hx
  cases lf with
  | true =>
    rw [smoothFreqR, if_pos rfl] at hx
    obtain ⟨q, hq, rfl⟩ := List.mem_map.mp hx
    refine Real.log_nonneg ?_
    have hq0 := hf q hq
    have hq0R : (0 : ℝ) ≤ (q : ℝ) := by exact_mod_cast hq0
    linarith
  | false =>
    rw [smoothFreqR, if_neg (by simp)] at hx
    obtain ⟨q, hq, rfl⟩ := List.mem_map.mp hx
    exact_mod_cast hf q hq

theorem smoothFreqR_length (lf : Bool) (freq : List ℚ) :
    (smoothFreqR lf freq).length = freq.length := by
  cases lf
  · rw [smoothFreqR, if_neg (by simp), List.length_map]
  · rw [smoothFreqR, if_pos rfl, List.length_map]

theorem probRow_p3 (lf : Bool) (sm : ℚ → ℚ) (m : Mat) (st d maxcat : Nat)
    (hnn : ∀ x ∈ smoothFreq lf sm (categoryFreq m st d), 0 ≤ x)
    (hsum : (smoothFreq lf sm (categoryFreq m st d)).sum ≠ 0) :
    ((probRow lf sm m st d maxcat).take d).sum = 1 ∧
    (∀ x ∈ probRow lf sm m st d maxcat, 0 ≤ x) ∧
    (∀ i, d ≤ i → (probRow lf sm m st d maxcat).getD i 0 = 0) := by
  have hs0 : 0 ≤ (smoothFreq lf sm (categoryFreq m st d)).sum :=
    List.sum_nonneg hnn
  have hmlen : ((smoothFreq lf sm (categoryFreq m st d)).map
      (fun p => p / (smoothFreq lf sm (categoryFreq m st d)).sum)).length
      = d := by
    rw [List.length_map, smoothFreq_length, categoryFreq_length]
  refine ⟨?_, ?_, ?_⟩
  · rw [probRow, List.take_left' hmlen]
    have hms : ((smoothFreq lf sm (categoryFreq m st d)).map
        (fun p => p / (smoothFreq lf sm (categoryFreq m st d)).sum)).sum =
        ((smoothFreq lf sm (categoryFreq m st d)).map id).sum *
          ((smoothFreq lf sm (categoryFreq m st d)).sum)⁻¹ := by
      rw [← List.sum_map_mul_right]
      refine congrArg List.sum ?_
      refine List.map_congr_left ?_
      intro a _
      rw [id_eq, div_eq_mul_inv]
    rw [hms, List.map_id]
    field_simp
  · intro x hx
    rw [probRow] at hx
    rcases List.mem_append.mp hx with hx | hx
    · obtain ⟨p, hp, rfl⟩ := List.mem_map.mp hx
      exact div_nonneg (hnn p hp) hs0
    · rw [List.eq_of_mem_replicate hx]
  · intro i hi
    rw [probRow,
      List.getD_append_right _ _ _ _ (by rw [hmlen]; exact hi), hmlen]
    exact getD_replicate_self 0 _ _

theorem probRowR_p3 (lf : Bool) (m : Mat) (st d maxcat : Nat)
    (hnn : ∀ i, i < m.nrows → ∀ j, j < d → 0 ≤ m.entry i (st + j))
    (hsum : (smoothFreqR lf (categoryFreq m st d)).sum ≠ 0) :
    ((probRowR lf m st d maxcat).take d).sum = 1 ∧
    (∀ x ∈ probRowR lf m st d maxcat, 0 ≤ x) ∧
    (∀ i, d ≤ i → (probRowR lf m st d maxcat).getD i 0 = 0) ∧
    (∀ sm : ℚ → ℚ, (probRow false sm m st d maxcat).map (Rat.cast : ℚ → ℝ)
      = probRowR false m st d maxcat) := by
  have hfnn : ∀ x ∈ smoothFreqR lf (categoryFreq m st d), 0 ≤ x :=
    smoothFreqR_nonneg (categoryFreq_nonneg hnn)
  have hs0 : 0 ≤ (smoothFreqR lf (categoryFreq m st d)).sum :=
    List.sum_nonneg hfnn
  have hmlen : ((smoothFreqR lf (categoryFreq m st d)).map
      (fun p => p / (smoothFreqR lf (categoryFreq m st d)).sum)).length
      = d := by
    rw [List.length_map, smoothFreqR_length, categoryFreq_length]
  refine ⟨?_, ?_, ?_, ?_⟩
  · rw [probRowR, List.take_left' hmlen]
    have hms : ((smoothFreqR lf (categoryFreq m st d)).map
        (fun p => p / (smoothFreqR lf (categoryFreq m st d)).sum)).sum =
        ((smoothFreqR lf (categoryFreq m st d)).map id).sum *
          ((smoothFreqR lf (categoryFreq m st d)).sum)⁻¹ := by
      rw [← List.sum_map_mul_right]
      refine congrArg List.sum ?_
      refine List.map_congr_left ?_
      intro a _
      rw [id_eq, div_eq_mul_inv]
    rw [hms, List.map_id]
    field_simp
  · intro x hx
    rw [probRowR] at hx
    rcases List.mem_append.mp hx with hx | hx
    · obtain ⟨p, hp, rfl⟩ := List.mem_map.mp hx
      exact div_nonneg (hfnn p hp) hs0
    · rw [List.eq_of_mem_replicate hx]
  · intro i hi
    rw [probRowR,
      List.getD_append_right _ _ _ _ (by rw [hmlen]; exact hi), hmlen]
    exact getD_replicate_self 0 _ _
  · intro sm
    have h1 : smoothFreq false sm (categoryFreq m st d) =
        categoryFreq m st d := by
      rw [smoothFreq, if_neg (by simp)]
    have h2 : smoothFreqR false (categoryFreq m st d) =
        (categoryFreq m st d).map (Rat.cast : ℚ → ℝ) := by
      rw [smoothFreqR, if_neg (by simp)]
    have hsumcast : ((categoryFreq m st d).map (Rat.cast : ℚ → ℝ)).sum =
        (((categoryFreq m st d).sum : ℚ) : ℝ) := by
      rw [show (Rat.cast : ℚ → ℝ) = ⇑(Rat.castHom ℝ) from rfl,
        ← map_list_sum (Rat.castHom ℝ)]
    show List.map (Rat.cast : ℚ → ℝ)
        ((smoothFreq false sm (categoryFreq m st d)).map
          (fun p => p / (smoothFreq false sm (categoryFreq m st d)).sum) ++
          List.replicate (maxcat - d) 0) =
      (smoothFreqR false (categoryFreq m st d)).map
        (fun p => p / (smoothFreqR false (categoryFreq m st d)).sum) ++
        List.replicate (maxcat - d) 0
    rw [h1, h2, List.map_append, List.map_map, List.map_map]
    congr 1
    · refine List.map_congr_left ?_
      intro a _
      simp only [Function.comp_apply]
      rw [hsumcast]
      push_cast
      ring
    · simp

/-- Claim C7: for every constructed sampler and every discrete column c,
with (st, d) the column's true one-hot block position and width as
located by the construction walk: the sampler stores for c exactly the
probRow of that block — the (optionally smoothed) empirical frequency
row normalised by its sum and padded with zeros — together with the
category count d; the stored row sums to 1 over the true category range,
has only nonnegative entries, and is 0 at every index at or beyond d;
the real-valued reading of the same block with the source's
np.log(category_freq + 1) taken literally as Real.log (probRowR)
satisfies the same three properties; and when smoothing is off the
stored row casts exactly to that real row.  Hypotheses restrict only the
column's own block: its entries are nonnegative (true of any one-hot
block, whatever the other columns hold) and the smoothed frequency sums
are nonzero (true whenever the block has a nonzero entry; on an all-zero
block the source divides 0/0 and stores NaN). -/
theorem c7_prob_row_normalized {m : Mat} {oi : List (List SpanInfo)}
    {lf : Bool} {sm : ℚ → ℚ} {s : DataSampler}
    (h : DataSampler.init m oi lf sm = .ok s) {c : Nat}
    (hc : c < s.n_discrete_columns)
    (hnn : ∀ i, i < m.nrows →
      ∀ j, j < ((discStarts oi 0).getD c (0, 0)).2 →
        0 ≤ m.entry i (((discStarts oi 0).getD c (0, 0)).1 + j))
    (hsmnn : ∀ x ∈ smoothFreq lf sm (categoryFreq m
      ((discStarts oi 0).getD c (0, 0)).1
      ((discStarts oi 0).getD c (0, 0)).2), 0 ≤ x)
    (hsmsum : (smoothFreq lf sm (categoryFreq m
      ((discStarts oi 0).getD c (0, 0)).1
      ((discStarts oi 0).getD c (0, 0)).2)).sum ≠ 0)
    (hsumR : (smoothFreqR lf (categoryFreq m
      ((discStarts oi 0).getD c (0, 0)).1
      ((discStarts oi 0).getD c (0, 0)).2)).sum ≠ 0) :
    s.discrete_column_category_prob.getD c [] =
      probRow lf sm m ((discStarts oi 0).getD c (0, 0)).1
        ((discStarts oi 0).getD c (0, 0)).2 (maxCategory oi) ∧
    s.discrete_column_n_category.getD c 0 =
      ((discStarts oi 0).getD c (0, 0)).2 ∧
    ((s.discrete_column_category_prob.getD c []).take
      (s.discrete_column_n_category.getD c 0)).sum = 1 ∧
    (∀ x ∈ s.discrete_column_category_prob.getD c [], 0 ≤ x) ∧
    (∀ i, s.discrete_column_n_category.getD c 0 ≤ i →
      (s.discrete_column_category_prob.getD c []).getD i 0 = 0) ∧
    ((probRowR lf m ((discStarts oi 0).getD c (0, 0)).1
      ((discStarts oi 0).getD c (0, 0)).2 (maxCategory oi)).take
      ((discStarts oi 0).getD c (0, 0)).2).sum = 1 ∧
    (∀ x ∈ probRowR lf m ((discStarts oi 0).getD c (0, 0)).1
      ((discStarts oi 0).getD c (0, 0)).2 (maxCategory oi), 0 ≤ x) ∧
    (∀ i, ((discStarts oi 0).getD c (0, 0)).2 ≤ i →
      (probRowR lf m ((discStarts oi 0).getD c (0, 0)).1
        ((discStarts oi 0).getD c (0, 0)).2 (maxCategory oi)).getD i 0
        = 0) ∧
    (lf = false →
      (s.discrete_column_category_prob.getD c []).map (Rat.cast : ℚ → ℝ)
        = probRowR false m ((discStarts oi 0).getD c (0, 0)).1
          ((discStarts oi 0).getD c (0, 0)).2 (maxCategory oi)) := by
  obtain ⟨hp, hn⟩ := init_prob_ncat h hc
  obtain ⟨q1, q2, q3⟩ := probRow_p3 lf sm m
    ((discStarts oi 0).getD c (0, 0)).1 ((discStarts oi 0).getD c (0, 0)).2
    (maxCategory oi) hsmnn hsmsum
  obtain ⟨r1, r2, r3, r4⟩ := probRowR_p3 lf m
    ((discStarts oi 0).getD c (0, 0)).1 ((discStarts oi 0).getD c (0, 0)).2
    (maxCategory oi) hnn hsumR
  refine ⟨hp, hn, ?_, ?_, ?_, r1, r2, r3, ?_⟩
  · rw [hp, hn]
    exact q1
  · rw [hp]
    exact q2
  · intro i hi
    rw [hp]
    refine q3 i ?_
    rw [hn] at hi
    exact hi
  · intro hlf
    subst hlf
    rw [hp]
    exact r4 sm

/-- Witness for C7 at a concrete constructed sampler (sampler1, discrete
column 0, block (0, 2), no smoothing). -/
theorem c7_prob_row_witness :
    DataSampler.init mat1 oi1 false id = .ok sampler1 ∧
    (0 < sampler1.n_discrete_columns ∧
      (∀ i, i < mat1.nrows →
        ∀ j, j < ((discStarts oi1 0).getD 0 (0, 0)).2 →
          0 ≤ mat1.entry i (((discStarts oi1 0).getD 0 (0, 0)).1 + j)) ∧
      (∀ x ∈ smoothFreq false id (categoryFreq mat1
        ((discStarts oi1 0).getD 0 (0, 0)).1
        ((discStarts oi1 0).getD 0 (0, 0)).2), 0 ≤ x) ∧
      (smoothFreq false id (categoryFreq mat1
        ((discStarts oi1 0).getD 0 (0, 0)).1
        ((discStarts oi1 0).getD 0 (0, 0)).2)).sum ≠ 0 ∧
      (smoothFreqR false (categoryFreq mat1
        ((discStarts oi1 0).getD 0 (0, 0)).1
        ((discStarts oi1 0).getD 0 (0, 0)).2)).sum ≠ 0) ∧
    (sampler1.discrete_column_category_prob.getD 0 [] =
      probRow false id mat1 ((discStarts oi1 0).getD 0 (0, 0)).1
        ((discStarts oi1 0).getD 0 (0, 0)).2 (maxCategory oi1) ∧
    sampler1.discrete_column_n_category.getD 0 0 =
      ((discStarts oi1 0).getD 0 (0, 0)).2 ∧
    ((sampler1.discrete_column_category_prob.getD 0 []).take
      (sampler1.discrete_column_n_category.getD 0 0)).sum = 1 ∧
    (∀ x ∈ sampler1.discrete_column_category_prob.getD 0 [], 0 ≤ x) ∧
    (∀ i, sampler1.discrete_column_n_category.getD 0 0 ≤ i →
      (sampler1.discrete_column_category_prob.getD 0 []).getD i 0 = 0) ∧
    ((probRowR false mat1 ((discStarts oi1 0).getD 0 (0, 0)).1
      ((discStarts oi1 0).getD 0 (0, 0)).2 (maxCategory oi1)).take
      ((discStarts oi1 0).getD 0 (0, 0)).2).sum = 1 ∧
    (∀ x ∈ probRowR false mat1 ((discStarts oi1 0).getD 0 (0, 0)).1
      ((discStarts oi1 0).getD 0 (0, 0)).2 (maxCategory oi1), 0 ≤ x) ∧
    (∀ i, ((discStarts oi1 0).getD 0 (0, 0)).2 ≤ i →
      (probRowR false mat1 ((discStarts oi1 0).getD 0 (0, 0)).1
        ((discStarts oi1 0).getD 0 (0, 0)).2 (maxCategory oi1)).getD i 0
        = 0) ∧
    (false = false →
      (sampler1.discrete_column_category_prob.getD 0 []).map
        (Rat.cast : ℚ → ℝ)
        = probRowR false mat1 ((discStarts oi1 0).getD 0 (0, 0)).1
          ((discStarts oi1 0).getD 0 (0, 0)).2 (maxCategory oi1))) :=
  ⟨rfl,
    ⟨by decide, by decide,
      by norm_num [smoothFreq, categoryFreq, Mat.entry, Mat.nrows, mat1,
        oi1, discStarts, sumDims, is_discrete_column, List.range_succ],
      by norm_num [smoothFreq, categoryFreq, Mat.entry, Mat.nrows, mat1,
        oi1, discStarts, sumDims, is_discrete_column, List.range_succ],
      by norm_num [smoothFreqR, categoryFreq, Mat.entry, Mat.nrows, mat1,
        oi1, discStarts, sumDims, is_discrete_column, List.range_succ]⟩,
    c7_prob_row_normalized
      (show DataSampler.init mat1 oi1 false id = .ok sampler1 from rfl)
      (by decide) (by decide)
      (by norm_num [smoothFreq, categoryFreq, Mat.entry, Mat.nrows, mat1,
        oi1, discStarts, sumDims, is_discrete_column, List.range_succ])
      (by norm_num [smoothFreq, categoryFreq, Mat.entry, Mat.nrows, mat1,
        oi1, discStarts, sumDims, is_discrete_column, List.range_succ])
      (by norm_num [smoothFreqR, categoryFreq, Mat.entry, Mat.nrows, mat1,
        oi1, discStarts, sumDims, is_discrete_column, List.range_succ])⟩
